import Mathlib

/-!
Shallow embedding of the retrieval and grounding engine of the
Motel_Phone_Call repository (src/booking/parsing.py, search.py, index.py,
context.py and src/app/config.py, assistant.py), together with theorems
settling the frozen claims about its specification.

Text is modelled as Lean `String` / `List Char` restricted to the ASCII
fragment the dataset and queries use; Python regular expressions are
modelled by hand-written leftmost-match scanners with the same greedy /
backtracking behaviour on that fragment; Python `datetime.date` is
modelled by the `MDate` structure with proleptic-Gregorian ordinals.
-/

namespace Motel

/-! ## Character primitives -/

/-- ASCII lower-case letter or digit: the character class of the token
regular expression `[a-z0-9]+` in parsing.py. -/
def isTokChar (c : Char) : Bool :=
  (97 ≤ c.toNat && c.toNat ≤ 122) || (48 ≤ c.toNat && c.toNat ≤ 57)

/-- ASCII digit, the `\d` class. -/
def isDigitChar (c : Char) : Bool :=
  48 ≤ c.toNat && c.toNat ≤ 57

/-- Word character for `\b` boundaries: `[A-Za-z0-9_]` (ASCII fragment of `\w`). -/
def isWordChar (c : Char) : Bool :=
  (97 ≤ c.toNat && c.toNat ≤ 122) || (65 ≤ c.toNat && c.toNat ≤ 90) ||
    (48 ≤ c.toNat && c.toNat ≤ 57) || c.toNat = 95

/-- Whitespace for the `\s` class: space, tab, newline, CR, VT, FF. -/
def isSpaceChar (c : Char) : Bool :=
  c.toNat = 32 || c.toNat = 9 || c.toNat = 10 || c.toNat = 13 ||
    c.toNat = 11 || c.toNat = 12

/-- `str.lower()` on the ASCII fragment. -/
def lowerStr (s : String) : String :=
  String.mk (s.toList.map Char.toLower)

def digitVal (c : Char) : ℕ := c.toNat - 48

/-- Numeric value of a digit string, as Python `int` on an all-digit string. -/
def digitsVal (l : List Char) : ℕ :=
  l.foldl (fun acc c => acc * 10 + digitVal c) 0

/-- Python `str.isdigit()` on the ASCII fragment: nonempty and all digits. -/
def isDigits (l : List Char) : Bool :=
  !l.isEmpty && l.all isDigitChar

/-- `l` begins with `p` (used for substring search and regex literals). -/
def startsList : List Char → List Char → Bool
  | [], _ => true
  | _ :: _, [] => false
  | p :: ps, c :: cs => p = c && startsList ps cs

/-- Python `pat in s` substring test on char lists. -/
def hasSub : List Char → List Char → Bool
  | l, pat =>
    match l with
    | [] => pat.isEmpty
    | _ :: rest => startsList pat l || hasSub rest pat

/-- Python `str.strip()` (default whitespace) on the ASCII fragment. -/
def stripStr (s : String) : String :=
  String.mk (((s.toList.dropWhile isSpaceChar).reverse.dropWhile isSpaceChar).reverse)

/-! ## Lexical tokenizer (`_tokenize`, `_query_tokens` in parsing.py) -/

def tokenizeAux : List Char → List Char → List (List Char)
  | [], acc => if acc.isEmpty then [] else [acc.reverse]
  | c :: rest, acc =>
    if isTokChar c then tokenizeAux rest (c :: acc)
    else if acc.isEmpty then tokenizeAux rest []
    else acc.reverse :: tokenizeAux rest []

/-- `_tokenize(text)`: `re.findall(r"[a-z0-9]+", text.lower())`. -/
def tokenize (text : String) : List String :=
  (tokenizeAux (lowerStr text).toList []).map String.mk

def STOPWORDS : List String :=
  ["a", "an", "and", "are", "at", "be", "can", "do", "for", "have", "i", "in",
   "is", "it", "me", "of", "on", "or", "our", "please", "the", "to", "us",
   "we", "with", "you", "your"]

/-- `_query_tokens(query)`: token set minus stopwords. -/
def query_tokens (query : String) : Finset String :=
  ((tokenize query).filter (fun t => t ∉ STOPWORDS)).toFinset

/-! ## Calendar model of Python `datetime.date` -/

structure MDate where
  year : ℕ
  month : ℕ
  day : ℕ
  deriving DecidableEq, Repr

def isLeap (y : ℕ) : Bool :=
  (y % 4 = 0 && y % 100 ≠ 0) || y % 400 = 0

def daysInMonth (y : ℕ) (m : ℕ) : ℕ :=
  match m with
  | 2 => if isLeap y then 29 else 28
  | 4 => 30
  | 6 => 30
  | 9 => 30
  | 11 => 30
  | _ => 31

/-- Validity condition of the `datetime.date` constructor. -/
def validMDate (d : MDate) : Prop :=
  1 ≤ d.year ∧ d.year ≤ 9999 ∧ 1 ≤ d.month ∧ d.month ≤ 12 ∧
    1 ≤ d.day ∧ d.day ≤ daysInMonth d.year d.month

instance (d : MDate) : Decidable (validMDate d) := by
  unfold validMDate; infer_instance

/-- Days in all years before year `y` (proleptic Gregorian), as in
`date.toordinal`: ordinal of Jan 1 of year `y` is `daysBeforeYear y + 1`. -/
def daysBeforeYear (y : ℕ) : ℕ :=
  365 * (y - 1) + (y - 1) / 4 + (y - 1) / 400 - (y - 1) / 100

/-- Days in the months of year `y` strictly before month `m`. -/
def daysBeforeMonth (leap : Bool) (m : ℕ) : ℕ :=
  match m with
  | 1 => 0
  | 2 => 31
  | 3 => 59 + (if leap then 1 else 0)
  | 4 => 90 + (if leap then 1 else 0)
  | 5 => 120 + (if leap then 1 else 0)
  | 6 => 151 + (if leap then 1 else 0)
  | 7 => 181 + (if leap then 1 else 0)
  | 8 => 212 + (if leap then 1 else 0)
  | 9 => 243 + (if leap then 1 else 0)
  | 10 => 273 + (if leap then 1 else 0)
  | 11 => 304 + (if leap then 1 else 0)
  | 12 => 334 + (if leap then 1 else 0)
  | _ => 0

/-- `date.toordinal()`: day number with 0001-01-01 as day 1. -/
def toOrdinal (d : MDate) : ℕ :=
  daysBeforeYear d.year + daysBeforeMonth (isLeap d.year) d.month + d.day

/-- `d + timedelta(days=1)` as a calendar step. -/
def nextDay (d : MDate) : MDate :=
  if d.day < daysInMonth d.year d.month then ⟨d.year, d.month, d.day + 1⟩
  else if d.month < 12 then ⟨d.year, d.month + 1, 1⟩
  else ⟨d.year + 1, 1, 1⟩

/-- `d + timedelta(days=k)`. -/
def addDays (d : MDate) (k : ℕ) : MDate :=
  match k with
  | 0 => d
  | k + 1 => addDays (nextDay d) k

/-- `date.weekday()`: Monday = 0. 0001-01-01 (ordinal 1) is a Monday. -/
def weekdayOf (d : MDate) : ℕ :=
  (toOrdinal d + 6) % 7

/-! ## Regex scanners

Hand-written leftmost-match scanners for the regular expressions of
parsing.py and context.py, reproducing the greedy matching with
backtracking of Python `re` on the relevant patterns. -/

def wordB : Option Char → Bool
  | none => false
  | some c => isWordChar c

/-- A `\b` assertion between a previous character and the current position. -/
def boundaryB (prev cur : Option Char) : Bool :=
  xor (wordB prev) (wordB cur)

/-- `\b` immediately after a word character: next char absent or non-word. -/
def bAfterWord : List Char → Bool
  | [] => true
  | c :: _ => !isWordChar c

/-- Leftmost-match driver: try the position matcher `f` at every position,
threading the previous character for `\b` assertions. -/
def searchWith {α : Type} (f : Option Char → List Char → Option α) :
    Option Char → List Char → Option α
  | prev, [] => f prev []
  | prev, c :: rest =>
    match f prev (c :: rest) with
    | some g => some g
    | none => searchWith f (some c) rest

/-! ### `_DATE_RE = \b(20\d{2})-(\d{1,2})-(\d{1,2})\b` -/

/-- Day group `(\d{1,2})` of `_DATE_RE` followed by the final `\b`;
greedy two digits first, then one. -/
def dateDayPart (year month : ℕ) : List Char → Option (ℕ × ℕ × ℕ)
  | l =>
    let t2 : Option (ℕ × ℕ × ℕ) :=
      match l with
      | d1 :: d2 :: r =>
        if isDigitChar d1 && isDigitChar d2 && bAfterWord r then
          some (year, month, 10 * digitVal d1 + digitVal d2)
        else none
      | _ => none
    let t1 : Option (ℕ × ℕ × ℕ) :=
      match l with
      | d1 :: r =>
        if isDigitChar d1 && bAfterWord r then some (year, month, digitVal d1)
        else none
      | _ => none
    t2 <|> t1

/-- Month group `(\d{1,2})-` of `_DATE_RE`; greedy with backtracking into
the day part. -/
def dateMonthPart (year : ℕ) : List Char → Option (ℕ × ℕ × ℕ)
  | l =>
    let t2 : Option (ℕ × ℕ × ℕ) :=
      match l with
      | m1 :: m2 :: '-' :: r =>
        if isDigitChar m1 && isDigitChar m2 then
          dateDayPart year (10 * digitVal m1 + digitVal m2) r
        else none
      | _ => none
    let t1 : Option (ℕ × ℕ × ℕ) :=
      match l with
      | m1 :: '-' :: r =>
        if isDigitChar m1 then dateDayPart year (digitVal m1) r else none
      | _ => none
    t2 <|> t1

/-- `_DATE_RE` anchored at the current position. -/
def dateAt (prev : Option Char) : List Char → Option (ℕ × ℕ × ℕ)
  | '2' :: '0' :: a :: b :: '-' :: rest =>
    if !wordB prev && isDigitChar a && isDigitChar b then
      dateMonthPart (2000 + 10 * digitVal a + digitVal b) rest
    else none
  | _ => none

/-- `_DATE_RE.search` returning the three integer groups. -/
def findDateRe (s : String) : Option (ℕ × ℕ × ℕ) :=
  searchWith dateAt none s.toList

/-! ### `_MONTH_DAY_RE` and `_MONTH_DAY_RE_REV` -/

/-- The month-name alternation of the two month/day patterns flattened into
priority order: each alternative with its optional long tail greedy, so the
long form of a name is tried before its abbreviation. -/
def monthForms : List (List Char) :=
  ["january".toList, "jan".toList, "february".toList, "feb".toList,
   "march".toList, "mar".toList, "april".toList, "apr".toList, "may".toList,
   "june".toList, "jun".toList, "july".toList, "jul".toList,
   "august".toList, "aug".toList,
   "september".toList, "sept".toList, "sep".toList,
   "october".toList, "oct".toList, "november".toList, "nov".toList,
   "december".toList, "dec".toList]

/-- Month-name alternatives matching at the head of `l`, in priority order,
with the remaining input. -/
def monthCandidates (l : List Char) : List (List Char × List Char) :=
  monthForms.filterMap fun f =>
    if startsList f l then some (f, l.drop f.length) else none

/-- The `_MONTHS` dict of parsing.py. -/
def MONTHS : List (String × ℕ) :=
  [("jan", 1), ("january", 1), ("feb", 2), ("february", 2), ("mar", 3),
   ("march", 3), ("apr", 4), ("april", 4), ("may", 5), ("jun", 6),
   ("june", 6), ("jul", 7), ("july", 7), ("aug", 8), ("august", 8),
   ("sep", 9), ("sept", 9), ("september", 9), ("oct", 10), ("october", 10),
   ("nov", 11), ("november", 11), ("dec", 12), ("december", 12)]

def monthsLookup (t : String) : Option ℕ :=
  (MONTHS.find? (fun p => p.1 = t)).map (·.2)

/-- `_MONTHS.get(month_token[:3], _MONTHS.get(month_token, 0))`. -/
def monthFromToken (t : String) : ℕ :=
  (monthsLookup (String.mk (t.toList.take 3))).getD ((monthsLookup t).getD 0)

/-- Trailing `(?:\s*(?P<year>\d{4}))?\b` of either month/day pattern: the
optional year group is tried greedily, falling back to a bare `\b` right
after the preceding word character. Returns `some year?` on a match. -/
def yearTailPart (rest : List Char) : Option (Option ℕ) :=
  let withYear : Option (Option ℕ) :=
    match rest.dropWhile isSpaceChar with
    | a :: b :: c :: d :: r =>
      if isDigitChar a && isDigitChar b && isDigitChar c && isDigitChar d &&
          bAfterWord r then
        some (some (1000 * digitVal a + 100 * digitVal b + 10 * digitVal c + digitVal d))
      else none
    | _ => none
  withYear <|> (if bAfterWord rest then some none else none)

/-- Month group of `_MONTH_DAY_RE` followed by the year-or-boundary tail. -/
def mdMonthPart (day : ℕ) (l : List Char) : Option (ℕ × List Char × Option ℕ) :=
  (monthCandidates l).findSome? fun p =>
    (yearTailPart p.2).map fun yr => (day, p.1, yr)

/-- After the day group of `_MONTH_DAY_RE`: optional ordinal suffix, `\s*`,
optional `of\s+`, then month and year tail, with backtracking over the
optional pieces. -/
def mdAfterDay (day : ℕ) (r : List Char) : Option (ℕ × List Char × Option ℕ) :=
  let afterSuffix : List Char → Option (ℕ × List Char × Option ℕ) := fun r1 =>
    let r2 := r1.dropWhile isSpaceChar
    let ofTry : Option (ℕ × List Char × Option ℕ) :=
      if startsList "of".toList r2 then
        let r3 := r2.drop 2
        match r3 with
        | c :: _ =>
          if isSpaceChar c then mdMonthPart day (r3.dropWhile isSpaceChar) else none
        | [] => none
      else none
    ofTry <|> mdMonthPart day r2
  let sufTry : Option (ℕ × List Char × Option ℕ) :=
    (["st".toList, "nd".toList, "rd".toList, "th".toList].findSome? fun sfx =>
      if startsList sfx r then afterSuffix (r.drop 2) else none)
  sufTry <|> afterSuffix r

/-- `_MONTH_DAY_RE` anchored at the current position: day first. -/
def mdAt (prev : Option Char) (l : List Char) : Option (ℕ × List Char × Option ℕ) :=
  if wordB prev then none
  else
    let t2 : Option (ℕ × List Char × Option ℕ) :=
      match l with
      | d1 :: d2 :: r =>
        if isDigitChar d1 && isDigitChar d2 then
          mdAfterDay (10 * digitVal d1 + digitVal d2) r
        else none
      | _ => none
    let t1 : Option (ℕ × List Char × Option ℕ) :=
      match l with
      | d1 :: r => if isDigitChar d1 then mdAfterDay (digitVal d1) r else none
      | _ => none
    t2 <|> t1

/-- After the day group of `_MONTH_DAY_RE_REV`: optional ordinal suffix,
then the year-or-boundary tail. -/
def mdRevAfterDay (day : ℕ) (tok : List Char) (r : List Char) :
    Option (ℕ × List Char × Option ℕ) :=
  let tailAt : List Char → Option (ℕ × List Char × Option ℕ) := fun r1 =>
    (yearTailPart r1).map fun yr => (day, tok, yr)
  let sufTry : Option (ℕ × List Char × Option ℕ) :=
    (["st".toList, "nd".toList, "rd".toList, "th".toList].findSome? fun sfx =>
      if startsList sfx r then tailAt (r.drop 2) else none)
  sufTry <|> tailAt r

/-- `_MONTH_DAY_RE_REV` anchored at the current position: month first. -/
def mdRevAt (prev : Option Char) (l : List Char) : Option (ℕ × List Char × Option ℕ) :=
  if wordB prev then none
  else
    (monthCandidates l).findSome? fun p =>
      let r2 := p.2.dropWhile isSpaceChar
      let t2 : Option (ℕ × List Char × Option ℕ) :=
        match r2 with
        | d1 :: d2 :: r =>
          if isDigitChar d1 && isDigitChar d2 then
            mdRevAfterDay (10 * digitVal d1 + digitVal d2) p.1 r
          else none
        | _ => none
      let t1 : Option (ℕ × List Char × Option ℕ) :=
        match r2 with
        | d1 :: r => if isDigitChar d1 then mdRevAfterDay (digitVal d1) p.1 r else none
        | _ => none
      t2 <|> t1

/-! ### `_WEEKDAY_RE = \b(?P<qualifier>next|this)?\s*(?P<weekday>...)\b` -/

/-- The `_WEEKDAYS` table: Monday = 0. -/
def weekdayForms : List (List Char × ℕ) :=
  [("monday".toList, 0), ("tuesday".toList, 1), ("wednesday".toList, 2),
   ("thursday".toList, 3), ("friday".toList, 4), ("saturday".toList, 5),
   ("sunday".toList, 6)]

def wdWeekdayPart (q : Option (List Char)) (r : List Char) :
    Option (Option (List Char) × ℕ) :=
  let r2 := r.dropWhile isSpaceChar
  weekdayForms.findSome? fun p =>
    if startsList p.1 r2 && bAfterWord (r2.drop p.1.length) then some (q, p.2)
    else none

/-- `_WEEKDAY_RE` anchored at the current position. -/
def wdAt (prev : Option Char) (l : List Char) : Option (Option (List Char) × ℕ) :=
  if boundaryB prev l.head? then
    let qualTry : Option (Option (List Char) × ℕ) :=
      (["next".toList, "this".toList].findSome? fun q =>
        if startsList q l then wdWeekdayPart (some q) (l.drop 4) else none)
    qualTry <|> wdWeekdayPart none l
  else none

/-! ## parsing.py -/

def digitCh (n : ℕ) : Char :=
  Char.ofNat (48 + n)

/-- `"{:04d}".format(n)` by digit extraction (agrees with Python for
`n ≤ 9999`, which covers every use below). -/
def pad4 (n : ℕ) : String :=
  String.mk [digitCh (n / 1000 % 10), digitCh (n / 100 % 10),
    digitCh (n / 10 % 10), digitCh (n % 10)]

/-- `"{:02d}".format(n)` by digit extraction (agrees with Python for
`n ≤ 99`, which covers every use below). -/
def pad2 (n : ℕ) : String :=
  String.mk [digitCh (n / 10 % 10), digitCh (n % 10)]

/-- `_parse_date_str(value)`: `date.fromisoformat(value.strip())` with
`None` on failure, modelled on the documented `YYYY-MM-DD` input shape. -/
def parse_date_str (value : String) : Option MDate :=
  if value = "" then none
  else
    match (stripStr value).toList with
    | [y1, y2, y3, y4, '-', m1, m2, '-', d1, d2] =>
      if isDigitChar y1 && isDigitChar y2 && isDigitChar y3 && isDigitChar y4 &&
          isDigitChar m1 && isDigitChar m2 && isDigitChar d1 && isDigitChar d2 then
        let d : MDate :=
          ⟨digitsVal [y1, y2, y3, y4], digitsVal [m1, m2], digitsVal [d1, d2]⟩
        if validMDate d then some d else none
      else none
    | _ => none

/-- `_normalize_date(text)`: first `_DATE_RE` match rendered as a
zero-padded ISO string. -/
def normalize_date (text : String) : Option String :=
  if text = "" then none
  else
    (findDateRe text).map fun g =>
      pad4 g.1 ++ "-" ++ pad2 g.2.1 ++ "-" ++ pad2 g.2.2

/-- `_resolve_query_date(text)`, with the current date `today` passed
explicitly in place of `date.today()`. -/
def resolve_query_date (today : MDate) (text : String) : Option MDate × Bool :=
  if text = "" then (none, false)
  else
    match normalize_date text with
    | some normalized => (parse_date_str normalized, true)
    | none =>
      let lc := (lowerStr text).toList
      if hasSub lc "day after tomorrow".toList then (some (addDays today 2), false)
      else if hasSub lc "tomorrow".toList then (some (addDays today 1), false)
      else if hasSub lc "today".toList then (some today, false)
      else
        match searchWith mdAt none lc <|> searchWith mdRevAt none lc with
        | some (day, tok, yr) =>
          let month := monthFromToken (String.mk tok)
          let year := yr.getD today.year
          let d : MDate := ⟨year, month, day⟩
          if validMDate d then (some d, yr.isSome) else (none, false)
        | none =>
          match searchWith wdAt none lc with
          | some (q, wd) =>
            let ahead := (7 + wd - weekdayOf today) % 7
            let ahead := if q = some "next".toList && ahead = 0 then 7 else ahead
            (some (addDays today ahead), false)
          | none => (none, false)

/-! ## Stable sort

Python `list.sort` / `sorted` is a stable sort; a stable sort is determined
extensionally by its comparison, so it is modelled by a structurally
recursive stable insertion sort (`pySort le` sorts ascending with respect
to the boolean comparison `le`, keeping the original relative order of
elements that compare equal both ways, exactly as Python does). -/

def pyInsert {α : Type} (le : α → α → Bool) (x : α) : List α → List α
  | [] => [x]
  | y :: ys => if le y x then y :: pyInsert le x ys else x :: y :: ys

def pySort {α : Type} (le : α → α → Bool) (l : List α) : List α :=
  l.foldl (fun acc x => pyInsert le x acc) []

/-- Python `sep.join(parts)`. -/
def pyJoin (sep : String) : List String → String
  | [] => ""
  | x :: xs => xs.foldl (fun acc y => acc ++ sep ++ y) x

/-! ## search.py -/

/-- A dataset row as loaded by `csv.DictReader`: string fields keyed by
header name; `row.get(k, "")` yields `""` for absent keys. -/
def Row : Type := List (String × String)

instance : DecidableEq Row := by unfold Row; infer_instance

def rowGet (r : Row) (k : String) : String :=
  ((r.find? (fun p => p.1 = k)).map (·.2)).getD ""

/-- `_normalize_status(value)`. -/
def normalize_status (value : String) : String :=
  lowerStr (stripStr value)

/-- `_normalize_room_type(value)`. -/
def normalize_room_type (value : String) : String :=
  stripStr (pyJoin " " (tokenize value))

/-- Python `str.split()` with no argument: whitespace runs dropped. -/
def splitWsAux : List Char → List Char → List (List Char)
  | [], acc => if acc.isEmpty then [] else [acc.reverse]
  | c :: rest, acc =>
    if ! isSpaceChar c then splitWsAux rest (c :: acc)
    else if acc.isEmpty then splitWsAux rest []
    else acc.reverse :: splitWsAux rest []

def pySplit (s : String) : List String :=
  (splitWsAux s.toList []).map String.mk

/-- Lexicographic `<` on code points: Python string comparison. -/
def listCharLt : List Char → List Char → Bool
  | [], [] => false
  | [], _ :: _ => true
  | _ :: _, [] => false
  | a :: as, b :: bs =>
    if a.toNat < b.toNat then true
    else if b.toNat < a.toNat then false
    else listCharLt as bs

/-- Python string `<`. -/
def strLt (a b : String) : Bool :=
  listCharLt a.toList b.toList

/-- Python string `<=` (total: `a <= b` iff not `b < a`). -/
def strLe (a b : String) : Bool :=
  !(strLt b a)

/-- Python tuple `<` on `(len tokens, len normalized, original, normalized)`. -/
def quadLt (x y : ℕ × ℕ × String × String) : Bool :=
  decide (x.1 < y.1) ||
    (decide (x.1 = y.1) &&
      (decide (x.2.1 < y.2.1) ||
        (decide (x.2.1 = y.2.1) &&
          (strLt x.2.2.1 y.2.2.1 ||
            (decide (x.2.2.1 = y.2.2.1) && strLt x.2.2.2 y.2.2.2)))))

/-- `candidates.sort(reverse=True); candidates[0]` on distinct tuples:
the lexicographically greatest candidate. -/
def pickMaxQuad (h : ℕ × ℕ × String × String) (t : List (ℕ × ℕ × String × String)) :
    ℕ × ℕ × String × String :=
  t.foldl (fun best c => if quadLt best c then c else best) h

/-- `_detect_room_type(query, rows)`. -/
def detect_room_type (query : String) (rows : List Row) : Option String :=
  let qtoks := (tokenize query).toFinset
  if qtoks = ∅ then none
  else
    let room_types : List (String × String) := rows.foldl (fun acc r =>
      let rt := rowGet r "room_type"
      let normalized := normalize_room_type rt
      if normalized = "" then acc
      else if acc.any (fun p => p.1 = normalized) then acc
      else acc ++ [(normalized, rt)]) []
    let candidates : List (ℕ × ℕ × String × String) := room_types.filterMap (fun p =>
      let toks := pySplit p.1
      if toks ≠ [] ∧ toks.toFinset ⊆ qtoks then
        some (toks.length, p.1.length, p.2, p.1)
      else none)
    match candidates with
    | [] => none
    | c :: cs => some (pickMaxQuad c cs).2.2.1

/-- `_is_available(row)`. -/
def is_available (r : Row) : Bool :=
  let status := normalize_status (rowGet r "status")
  status = "available" || status = "vacant" ||
    startsList "available".toList status.toList

/-- `_filter_rows(rows, availability_only, room_type_filter)`. -/
def filter_rows (rows : List Row) (availability_only : Bool)
    (room_type_filter : Option String) : List Row :=
  let f1 := if availability_only then rows.filter is_available else rows
  match room_type_filter with
  | none => f1
  | some rtf =>
    if rtf = "" then f1
    else
      let nf := normalize_room_type rtf
      if nf = "" then f1
      else f1.filter (fun r => normalize_room_type (rowGet r "room_type") = nf)

/-- `_sort_room_number(value)` as a boolean comparison on the derived sort
keys `(0, int(text))` for all-digit strings and `(1, text)` otherwise. -/
def room_key_le (a b : String) : Bool :=
  let ta := stripStr a
  let tb := stripStr b
  match isDigits ta.toList, isDigits tb.toList with
  | true, true => decide (digitsVal ta.toList ≤ digitsVal tb.toList)
  | true, false => true
  | false, true => false
  | false, false => strLe ta tb

def isoformat (d : MDate) : String :=
  pad4 d.year ++ "-" ++ pad2 d.month ++ "-" ++ pad2 d.day

/-- `strftime('%b')` month abbreviations. -/
def monthAbbrev (m : ℕ) : String :=
  match m with
  | 1 => "Jan" | 2 => "Feb" | 3 => "Mar" | 4 => "Apr" | 5 => "May" | 6 => "Jun"
  | 7 => "Jul" | 8 => "Aug" | 9 => "Sep" | 10 => "Oct" | 11 => "Nov" | 12 => "Dec"
  | _ => ""

structure Summary where
  total : ℕ
  room_type_counts : List (String × ℕ)
  room_numbers : List String
  date_label : Option String
  availability_only : Bool
  room_type_filter : Option String
  summary_complete : Bool
  deriving DecidableEq, Repr

/-- Count-dictionary update preserving Python dict insertion order. -/
def bumpCount : List (String × ℕ) → String → List (String × ℕ)
  | [], k => [(k, 1)]
  | (k', n) :: rest, k =>
    if k' = k then (k', n + 1) :: rest else (k', n) :: bumpCount rest k

/-- `_summarize_rows(...)`. -/
def summarize_rows (rows : List Row) (query_date : Option MDate)
    (is_explicit_year : Bool) (availability_only : Bool)
    (room_type_filter : Option String) (summary_complete : Bool) : Summary :=
  let counts := rows.foldl (fun acc r =>
    let rt := stripStr (rowGet r "room_type")
    bumpCount acc (if rt = "" then "Unknown" else rt)) []
  let room_numbers :=
    pySort room_key_le ((rows.filterMap (fun r =>
        let v := rowGet r "room_number"
        if v = "" then none else some (stripStr v))).dedup)
  let date_label := query_date.map (fun qd =>
    if is_explicit_year then isoformat qd
    else monthAbbrev qd.month ++ " " ++ toString qd.day)
  { total := rows.length
    room_type_counts := counts
    room_numbers := room_numbers
    date_label := date_label
    availability_only := availability_only
    room_type_filter := room_type_filter
    summary_complete := summary_complete }

open Classical in
/-- `_cosine_similarity(vec_a, vec_b)` over exact reals. -/
noncomputable def cosine_similarity (vec_a vec_b : List ℝ) : ℝ :=
  let dot := (List.zipWith (fun a b => a * b) vec_a vec_b).sum
  let norm_a := Real.sqrt ((vec_a.map (fun a => a * a)).sum)
  let norm_b := Real.sqrt ((vec_b.map (fun b => b * b)).sum)
  if norm_a = 0 ∨ norm_b = 0 then 0 else dot / (norm_a * norm_b)

/-- One row of the persistent index as surfaced by `_load_index_rows`:
the parsed row, its descriptive text and its embedding vector. -/
structure IndexItem where
  row : Row
  row_text : String
  embedding : List ℝ

/-- The derived `tokens` field of `_load_index_rows`. -/
def itemTokens (it : IndexItem) : Finset String :=
  (tokenize it.row_text).toFinset

/-- The derived `row_date` field of `_load_index_rows`. -/
def itemDate (it : IndexItem) : Option MDate :=
  parse_date_str (rowGet it.row "date")

/-- The shared tail of the two complete-match branches of
`find_relevant_rows` (search.py lines 163-179 and 188-205): sort the
matching indexed rows by their raw `room_number` string, filter, summarize
with `summary_complete=True`, and truncate to `max_rows`. -/
def completeBranch (matched : List IndexItem) (query_date : MDate)
    (is_explicit_year : Bool) (max_rows : ℕ) (include_summary : Bool)
    (availability_only : Bool) (room_type_filter : Option String) :
    List Row × Option Summary :=
  let sorted := pySort (fun x y =>
    strLe (rowGet x.row "room_number") (rowGet y.row "room_number")) matched
  let all_rows := sorted.map (·.row)
  let filtered_rows := filter_rows all_rows availability_only room_type_filter
  let summary :=
    if include_summary then
      some (summarize_rows filtered_rows (some query_date) is_explicit_year
        availability_only room_type_filter true)
    else none
  (filtered_rows.take max_rows, summary)

open Classical in
/-- The lexical-filter + semantic-ranking branch of `find_relevant_rows`
(search.py lines 206-237), together with the `except` handler that turns
an embedding-service error into an empty result. -/
noncomputable def semanticBranch (embedQ : Except Unit (List ℝ))
    (query_text : String) (items : List IndexItem) (max_rows : ℕ)
    (include_summary : Bool) (availability_only : Bool)
    (room_type_filter : Option String) : List Row × Option Summary :=
  match embedQ with
  | .error _ => ([], none)
  | .ok query_embedding =>
    let query_toks := query_tokens query_text
    let candidates :=
      if query_toks ≠ ∅ then
        let filtered := items.filter (fun it => (itemTokens it ∩ query_toks).Nonempty)
        if !filtered.isEmpty then filtered else items
      else items
    let scored := candidates.map (fun it =>
      (cosine_similarity query_embedding it.embedding, it.row))
    let sorted := pySort (fun x y => decide (y.1 ≤ x.1)) scored
    let all_rows := sorted.map (·.2)
    let filtered_rows := filter_rows all_rows availability_only room_type_filter
    let summary :=
      if include_summary then
        some (summarize_rows filtered_rows none false availability_only
          room_type_filter false)
      else none
    (filtered_rows.take max_rows, summary)

/-- The exact-date candidate set of `find_relevant_rows`. -/
def dateMatchedRows (today : MDate) (query : String) (items : List IndexItem) :
    List IndexItem :=
  match (resolve_query_date today (stripStr query)).1 with
  | some query_date => items.filter (fun it => itemDate it = some query_date)
  | none => []

/-- The month/day (year-ignoring) candidate set of `find_relevant_rows`;
empty when the resolved date carried an explicit year, since the code only
retries without the year in that case. -/
def monthDayMatchedRows (today : MDate) (query : String) (items : List IndexItem) :
    List IndexItem :=
  match resolve_query_date today (stripStr query) with
  | (some query_date, is_explicit_year) =>
    if is_explicit_year then []
    else items.filter (fun it =>
      match itemDate it with
      | some rd => rd.month = query_date.month && rd.day = query_date.day
      | none => false)
  | (none, _) => []

open Classical in
/-- `find_relevant_rows(query, csv_path, ...)`, with its effectful inputs
passed explicitly: `apiKey` is `os.environ.get("OPENAI_API_KEY")`, `items`
the indexed rows loaded for the path, `today` the current date, and
`embedQ` the outcome of `_embed_query_cached` (`.error` for an
`OpenAIError`/`ValueError`). The pair models both return shapes: the
summary component is `none` whenever Python would return no summary. -/
noncomputable def find_relevant_rows (apiKey : Option String)
    (embedQ : Except Unit (List ℝ)) (today : MDate) (query : String)
    (items : List IndexItem) (max_rows : ℕ) (include_summary : Bool)
    (availability_only : Bool) : List Row × Option Summary :=
  if apiKey.isNone then ([], none)
  else if items.isEmpty then ([], none)
  else
    let query_text := stripStr query
    if query_text = "" then ([], none)
    else
      let resolved := resolve_query_date today query_text
      let room_type_filter := detect_room_type query_text (items.map (·.row))
      match resolved with
      | (some query_date, is_explicit_year) =>
        let date_rows := items.filter (fun it => itemDate it = some query_date)
        if !date_rows.isEmpty then
          completeBranch date_rows query_date is_explicit_year max_rows
            include_summary availability_only room_type_filter
        else if !is_explicit_year then
          let md_rows := items.filter (fun it =>
            match itemDate it with
            | some rd => rd.month = query_date.month && rd.day = query_date.day
            | none => false)
          if !md_rows.isEmpty then
            completeBranch md_rows query_date false max_rows
              include_summary availability_only room_type_filter
          else
            semanticBranch embedQ query_text items max_rows include_summary
              availability_only room_type_filter
        else
          semanticBranch embedQ query_text items max_rows include_summary
            availability_only room_type_filter
      | (none, _) =>
        semanticBranch embedQ query_text items max_rows include_summary
          availability_only room_type_filter

/-! ## context.py -/

def AVAILABILITY_TERMS : List String :=
  ["available", "availability", "vacant", "vacancy", "open", "free"]

/-- `_wants_availability(query)`. -/
def wants_availability (query : String) : Bool :=
  ((tokenize query).toFinset ∩ AVAILABILITY_TERMS.toFinset).Nonempty

/-- `_ROOM_NUMBER_RE = \b(room numbers?|room #|room no\.?|which room)\b`
anchored at the current position, with the greedy optional `s`/`.` and the
trailing `\b` after the non-word characters `#` and `.` requiring a
following word character. -/
def roomNumAt (prev : Option Char) (l : List Char) : Option Unit :=
  if wordB prev then none
  else
    let nextIsWord : List Char → Bool := fun r =>
      match r with
      | c :: _ => isWordChar c
      | [] => false
    let alts : List (List Char × Bool) :=
      [("room numbers".toList, true), ("room number".toList, true),
       ("room #".toList, false), ("room no.".toList, false),
       ("room no".toList, true), ("which room".toList, true)]
    alts.findSome? fun p =>
      if startsList p.1 l then
        let rest := l.drop p.1.length
        if (if p.2 then bAfterWord rest else nextIsWord rest) then some () else none
      else none

/-- `_wants_room_numbers(query)`. -/
def wants_room_numbers (query : String) : Bool :=
  (searchWith roomNumAt none (lowerStr query).toList).isSome

/-- `_format_room_number_list(room_numbers, preview_limit=4)`; the first
component is `none` for Python's `None`. -/
def format_room_number_list (room_numbers : List String) (preview_limit : ℕ) :
    Option String × ℕ :=
  if room_numbers = [] then (none, 0)
  else
    let preview := room_numbers.take preview_limit
    (some (pyJoin ", " preview), room_numbers.length - preview.length)

/-- The room-number block of `build_booking_context` (context.py lines
93-111), as the list of lines it appends when the caller asked for room
numbers. -/
def roomNumberLines (s : Summary) : List String :=
  if s.summary_complete then
    match format_room_number_list s.room_numbers 4 with
    | (some preview, remaining) =>
      if preview ≠ "" then
        ["Room numbers (use verbatim): " ++ preview ++
          (if remaining > 0 then " (and " ++ toString remaining ++ " more)" else "") ++ "."] ++
        (if remaining > 0 then ["Ask if they want the full list."] else [])
      else []
    | (none, _) => []
  else ["Room numbers requested, but full list is unavailable; ask a follow-up."]

/-- The summary block of `build_booking_context`. -/
def summaryLines (s : Summary) (wants_rn : Bool) : List String :=
  (match s.date_label with
   | some dl => if dl ≠ "" then ["Date: " ++ dl ++ "."] else []
   | none => []) ++
  (match s.room_type_filter with
   | some rt => if rt ≠ "" then ["Room type filter: " ++ rt ++ "."] else []
   | none => []) ++
  ["Status filter: " ++ (if s.availability_only then "available only" else "all statuses") ++ "."] ++
  (if s.summary_complete then
    (if s.total = 0 then ["No matching rooms found."]
     else
      ["Counts by room_type:"] ++
      (pySort strLe (s.room_type_counts.map (·.1))).map
        (fun rt => "- " ++ rt ++ ": " ++
          toString ((((s.room_type_counts.find? (fun p => p.1 = rt)).map (·.2)).getD 0))) ++
      ["Total rooms: " ++ toString s.total ++ "."]) ++
    ["Use the counts above for availability questions. Do not infer counts from sample rows."] ++
    ["If multiple room types are available, ask a preference before listing rooms. " ++
      "Do not list more than 3 room numbers unless explicitly requested."]
   else ["Note: retrieval is partial; do not provide exact counts unless explicitly listed."]) ++
  (if wants_rn then roomNumberLines s else [])

/-- One sample-row line of `build_booking_context`. -/
def sampleRowLine (r : Row) : String :=
  "- date: " ++ rowGet r "date" ++ ", room_number: " ++ rowGet r "room_number" ++
  ", room_type: " ++ rowGet r "room_type" ++ ", status: " ++ rowGet r "status" ++
  ", check_in: " ++ rowGet r "check_in" ++ ", check_out: " ++ rowGet r "check_out" ++
  ", guest_name: " ++ rowGet r "guest_name" ++ ", booking_id: " ++ rowGet r "booking_id" ++
  ", nightly_rate_nzd: " ++ rowGet r "nightly_rate_nzd" ++ ", notes: " ++ rowGet r "notes" ++
  ", floor: " ++ rowGet r "floor" ++ ", bed_setup: " ++ rowGet r "bed_setup" ++
  ", max_guests: " ++ rowGet r "max_guests" ++ ", room_size_sqm: " ++ rowGet r "room_size_sqm" ++
  ", kitchenette: " ++ rowGet r "kitchenette" ++ ", amenities: " ++ rowGet r "amenities" ++
  ", view: " ++ rowGet r "view" ++ ", accessible: " ++ rowGet r "accessible" ++
  ", room_type_description: " ++ rowGet r "room_type_description" ++
  ", rate_source: " ++ rowGet r "rate_source" ++
  ", pricing_reason: " ++ rowGet r "pricing_reason"

open Classical in
/-- `build_booking_context(query, csv_path, max_rows, db_path)` with the
same explicit effect inputs as `find_relevant_rows`. -/
noncomputable def build_booking_context (apiKey : Option String)
    (embedQ : Except Unit (List ℝ)) (today : MDate) (query : String)
    (items : List IndexItem) (max_rows : ℕ) : String :=
  let wants_rn := wants_room_numbers query
  let availability_only := wants_availability query || wants_rn
  let res := find_relevant_rows apiKey embedQ today query items max_rows true availability_only
  let rows := res.1
  let summary := res.2
  if rows = [] ∧ summary = none then ""
  else
    let lines :=
      ["Booking availability summary from the motel availability CSV."] ++
      (match summary with
       | some s => summaryLines s wants_rn
       | none => []) ++
      (if rows ≠ [] then
        ["Sample rows (up to " ++ toString max_rows ++ "):"] ++ rows.map sampleRowLine
       else [])
    pyJoin "\n" lines

/-! ## config.py and assistant.py -/

def AVAILABILITY_KEYWORDS : List String :=
  ["available", "availability", "book", "booking", "check", "checkin",
   "checkout", "date", "night", "occupancy", "occupied", "reserve",
   "reservation", "room", "rooms", "stay", "today", "tomorrow", "tonight",
   "next", "vacant", "vacancy", "monday", "tuesday", "wednesday", "thursday",
   "friday", "saturday", "sunday", "jan", "january", "feb", "february",
   "mar", "march", "apr", "april", "may", "jun", "june", "jul", "july",
   "aug", "august", "sep", "sept", "september", "oct", "october", "nov",
   "november", "dec", "december"]

/-- `should_use_booking_context(user_text)` of assistant.py; `DATE_RE` of
config.py is the group-free form of `_DATE_RE` and is modelled by the same
scanner. -/
def should_use_booking_context (user_text : String) : Bool :=
  if user_text = "" then false
  else
    let text := lowerStr user_text
    if (((tokenize text).toFinset) ∩ AVAILABILITY_KEYWORDS.toFinset).Nonempty then true
    else (findDateRe text).isSome

/-! ## index.py -/

/-- One persisted row of the `booking_vectors` table. -/
structure VecRow where
  csv_path : String
  row_index : ℕ
  row : Row
  row_text : String
  embedding : List ℝ

/-- The persistent store: the `booking_vectors` table and the
`booking_meta` key-value table, after `_init_db` has run. -/
structure Store where
  vectors : List VecRow
  meta : List (String × String)

def getMeta (st : Store) (k : String) : Option String :=
  (st.meta.find? (fun p => p.1 = k)).map (·.2)

def setMeta (st : Store) (k v : String) : Store :=
  if st.meta.any (fun p => p.1 = k) then
    { st with meta := st.meta.map (fun p => if p.1 = k then (k, v) else p) }
  else
    { st with meta := st.meta ++ [(k, v)] }

def rowCount (st : Store) (p : String) : ℕ :=
  (st.vectors.filter (fun v => v.csv_path = p)).length

/-- `_format_row_text(row)`. -/
def format_row_text (r : Row) : String :=
  "date: " ++ rowGet r "date" ++ "; room_number: " ++ rowGet r "room_number" ++
  "; room_type: " ++ rowGet r "room_type" ++ "; status: " ++ rowGet r "status" ++
  "; booking_id: " ++ rowGet r "booking_id" ++ "; guest_name: " ++ rowGet r "guest_name" ++
  "; check_in: " ++ rowGet r "check_in" ++ "; check_out: " ++ rowGet r "check_out" ++
  "; channel: " ++ rowGet r "channel" ++
  "; nightly_rate_nzd: " ++ rowGet r "nightly_rate_nzd" ++
  "; notes: " ++ rowGet r "notes" ++ "; floor: " ++ rowGet r "floor" ++
  "; bed_setup: " ++ rowGet r "bed_setup" ++ "; max_guests: " ++ rowGet r "max_guests" ++
  "; room_size_sqm: " ++ rowGet r "room_size_sqm" ++
  "; kitchenette: " ++ rowGet r "kitchenette" ++ "; amenities: " ++ rowGet r "amenities" ++
  "; view: " ++ rowGet r "view" ++ "; accessible: " ++ rowGet r "accessible" ++
  "; room_type_description: " ++ rowGet r "room_type_description" ++
  "; rate_source: " ++ rowGet r "rate_source" ++
  "; pricing_reason: " ++ rowGet r "pricing_reason"

/-- `rows[start:start+100]` batching of `_rebuild_index`. -/
def chunkAux {α : Type} : ℕ → List α → List (List α)
  | 0, _ => []
  | _ + 1, [] => []
  | fuel + 1, l => l.take 100 :: chunkAux fuel (l.drop 100)

def chunk100 {α : Type} (l : List α) : List (List α) :=
  chunkAux l.length l

/-- The embedding-request loop of `_rebuild_index`: one service call per
batch, aborting on the first error; returns the number of service calls
made and, on success, the accumulated `(row, text, embedding)` triples
(the service returns one vector per input text, per the §6 contract). -/
def runBatches (svc : List String → Except Unit (List (List ℝ))) :
    List (List Row) → ℕ × Except Unit (List (Row × String × List ℝ))
  | [] => (0, .ok [])
  | b :: bs =>
    let texts := b.map format_row_text
    match svc texts with
    | .error e => (1, .error e)
    | .ok embs =>
      let rec' := runBatches svc bs
      (rec'.1 + 1,
        rec'.2.map (fun tl =>
          (b.zip (texts.zip embs)).map (fun p => (p.1, p.2.1, p.2.2)) ++ tl))

/-- `_ensure_index(csv_path, db_path)` as a state transition on the store,
returning the new store and the number of embedding-service calls made.
`csvExists` and `mtime` model `os.path.exists` / `os.path.getmtime`
(`none` for an `OSError`), `csvRows` the parsed CSV content, `embedModel`
the configured model id, and `svc` the embedding service. `_init_db` on an
already-initialized store changes nothing and is modelled as the identity. -/
def ensure_index (embedModel : String)
    (svc : List String → Except Unit (List (List ℝ))) (csv_path : String)
    (csvExists : Bool) (mtime : Option String) (csvRows : List Row)
    (store : Store) : Store × ℕ :=
  if !csvExists then (store, 0)
  else
    match mtime with
    | none => (store, 0)
    | some mt =>
      if getMeta store "csv_path" = some csv_path ∧
          getMeta store "csv_mtime" = some mt ∧
          getMeta store "embed_model" = some embedModel ∧
          rowCount store csv_path > 0 then (store, 0)
      else if csvRows = [] then (store, 0)
      else
        let deleted : Store :=
          { store with vectors := store.vectors.filter (fun v => v.csv_path ≠ csv_path) }
        let run := runBatches svc (chunk100 csvRows)
        match run.2 with
        | .error _ => (deleted, run.1)
        | .ok triples =>
          let withRows : Store :=
            { deleted with
              vectors := deleted.vectors ++ triples.enum.map (fun p =>
                ⟨csv_path, p.1, p.2.1, p.2.2.1, p.2.2.2⟩) }
          (setMeta (setMeta (setMeta withRows "csv_path" csv_path)
            "csv_mtime" mt) "embed_model" embedModel, run.1)

/-! ## Concrete scenario data (from the spec's testable properties) -/

/-- Scenario rows: two rows dated 2025-06-10 with rooms "12" and "5". -/
def scenarioRow12 : Row :=
  [("date", "2025-06-10"), ("room_number", "12"), ("room_type", "Queen"),
   ("status", "Available")]

def scenarioRow5 : Row :=
  [("date", "2025-06-10"), ("room_number", "5"), ("room_type", "Queen"),
   ("status", "Available")]

def scenarioItems : List IndexItem :=
  [⟨scenarioRow12, "", []⟩, ⟨scenarioRow5, "", []⟩]

def scenarioToday : MDate := ⟨2025, 1, 1⟩

def scenarioQuery : String := "is anything available June 10 2025"

/-- The summary the scenario query produces on the scenario dataset. -/
def scenarioSummary : Summary :=
  { total := 2
    room_type_counts := [("Queen", 2)]
    room_numbers := ["5", "12"]
    date_label := some "2025-06-10"
    availability_only := false
    room_type_filter := none
    summary_complete := true }

/-- Five available rooms on 2025-06-10, for the room-number preview
scenario (queried the day before with "tomorrow"). -/
def c9Row (n : String) : Row :=
  [("date", "2025-06-10"), ("room_number", n), ("room_type", "Queen"),
   ("status", "Available")]

def c9Items : List IndexItem :=
  [⟨c9Row "101", "", []⟩, ⟨c9Row "102", "", []⟩, ⟨c9Row "103", "", []⟩,
   ⟨c9Row "104", "", []⟩, ⟨c9Row "105", "", []⟩]

def c9Today : MDate := ⟨2025, 6, 9⟩

def c9Query : String := "what room numbers are free tomorrow"

/-- A healthy embedding service for index witnesses: one (empty) vector
per input text, per the §6 contract. -/
def witSvcOk : List String → Except Unit (List (List ℝ)) :=
  fun texts => .ok (texts.map (fun _ => []))

/-- An always-failing embedding service for index witnesses. -/
def witSvcErr : List String → Except Unit (List (List ℝ)) :=
  fun _ => .error ()

/-- A complete summary with five distinct rooms, a concrete input for the
room-number preview cap. -/
def c9Summary : Summary :=
  { total := 5
    room_type_counts := [("Queen", 5)]
    room_numbers := ["101", "102", "103", "104", "105"]
    date_label := some "2025-06-10"
    availability_only := true
    room_type_filter := none
    summary_complete := true }

/-! # Theorems

Helper lemmas first, then one theorem (with witness or counterexample
companions) per claim. -/

theorem daysBeforeYear_succ (y : ℕ) (hy : 1 ≤ y) :
    daysBeforeYear (y + 1) = daysBeforeYear y + 365 + (if isLeap y then 1 else 0) := by
  obtain ⟨n, rfl⟩ : ∃ n, y = n + 1 := ⟨y - 1, by omega⟩
  simp only [daysBeforeYear, Nat.add_sub_cancel]
  rw [Nat.succ_div, Nat.succ_div, Nat.succ_div]
  have hle : n / 100 ≤ 365 * n := by
    have := Nat.div_le_self n 100; omega
  have hleap : isLeap (n + 1) = true ↔
      ((n + 1) % 4 = 0 ∧ (n + 1) % 100 ≠ 0) ∨ (n + 1) % 400 = 0 := by
    simp [isLeap]
  by_cases hl : isLeap (n + 1) = true
  · rw [if_pos hl]
    rw [hleap] at hl
    generalize n / 4 = A at *
    generalize n / 400 = B at *
    generalize n / 100 = C at *
    split_ifs <;> omega
  · rw [if_neg hl]
    rw [hleap] at hl
    generalize n / 4 = A at *
    generalize n / 400 = B at *
    generalize n / 100 = C at *
    split_ifs <;> omega

theorem toOrdinal_nextDay (d : MDate) (hv : validMDate d) :
    toOrdinal (nextDay d) = toOrdinal d + 1 := by
  obtain ⟨y, m, dy⟩ := d
  simp only [validMDate] at hv
  obtain ⟨h1, h2, h3, h4, h5, h6⟩ := hv
  unfold nextDay
  by_cases hd : dy < daysInMonth y m
  · simp only [hd, if_true, toOrdinal]; omega
  · have hday : dy = daysInMonth y m := by omega
    by_cases hm : m < 12
    · simp only [hd, hm, if_true, if_false, toOrdinal]
      have hmonth : daysBeforeMonth (isLeap y) (m + 1) =
          daysBeforeMonth (isLeap y) m + daysInMonth y m := by
        cases hb : isLeap y <;> interval_cases m <;>
          simp [daysBeforeMonth, daysInMonth, hb]
      omega
    · have hm12 : m = 12 := by omega
      subst hm12
      have hday31 : dy = 31 := by rw [hday]; rfl
      subst hday31
      simp only [hd, hm, if_false, toOrdinal]
      rw [daysBeforeYear_succ y h1]
      have hbm1 : daysBeforeMonth (isLeap (y + 1)) 1 = 0 := rfl
      have hbm12 : daysBeforeMonth (isLeap y) 12 = 334 + (if isLeap y then 1 else 0) := rfl
      rw [hbm1, hbm12]
      omega

theorem daysInMonth_pos (y m : ℕ) : 1 ≤ daysInMonth y m := by
  unfold daysInMonth
  split <;> first | omega | (split <;> omega)

theorem validMDate_mk (y m dy : ℕ) :
    validMDate ⟨y, m, dy⟩ ↔
      (1 ≤ y ∧ y ≤ 9999 ∧ 1 ≤ m ∧ m ≤ 12 ∧ 1 ≤ dy ∧ dy ≤ daysInMonth y m) :=
  Iff.rfl

/-- Validity and ordinal additivity along a short `timedelta` walk: for
`j ≤ 31` days starting from a valid date that is not at the very end of the
supported year range, every step stays valid and ordinals add up. -/
theorem addDays_walk (j : ℕ) (hj : j ≤ 31) :
    ∀ d : MDate, validMDate d → (d.year < 9999 ∨ (d.month = 1 ∧ d.day + j ≤ 31)) →
      validMDate (addDays d j) ∧ toOrdinal (addDays d j) = toOrdinal d + j := by
  induction j with
  | zero => intro d hv _; exact ⟨hv, rfl⟩
  | succ j ih =>
    rintro ⟨y, m, dy⟩ hv hinv
    simp only at hinv
    have hjle : j ≤ 31 := by omega
    have hv' := (validMDate_mk y m dy).mp hv
    obtain ⟨h1, h2, h3, h4, h5, h6⟩ := hv'
    have hstep : validMDate (nextDay ⟨y, m, dy⟩) ∧
        ((nextDay ⟨y, m, dy⟩).year < 9999 ∨
          ((nextDay ⟨y, m, dy⟩).month = 1 ∧ (nextDay ⟨y, m, dy⟩).day + j ≤ 31)) := by
      unfold nextDay
      simp only
      by_cases hd : dy < daysInMonth y m
      · simp only [hd, if_true]
        rcases hinv with hy | ⟨hm1, hd31⟩
        · exact ⟨(validMDate_mk _ _ _).mpr ⟨h1, h2, h3, h4, by omega, by omega⟩, Or.inl hy⟩
        · subst hm1
          have h31 : daysInMonth y 1 = 31 := rfl
          exact ⟨(validMDate_mk _ _ _).mpr ⟨h1, h2, h3, h4, by omega, by omega⟩,
            Or.inr ⟨by trivial, by omega⟩⟩
      · by_cases hm : m < 12
        · simp only [hd, hm, if_true, if_false]
          rcases hinv with hy | ⟨hm1, hd31⟩
          · exact ⟨(validMDate_mk _ _ _).mpr
              ⟨h1, h2, by omega, by omega, le_refl 1, daysInMonth_pos _ _⟩, Or.inl hy⟩
          · subst hm1
            have h31 : daysInMonth y 1 = 31 := rfl
            exact absurd hd (by omega)
        · simp only [hd, hm, if_false]
          rcases hinv with hy | ⟨hm1, _⟩
          · exact ⟨(validMDate_mk _ _ _).mpr
              ⟨by omega, by omega, by omega, by omega, le_refl 1, daysInMonth_pos _ _⟩,
              Or.inr ⟨by trivial, by omega⟩⟩
          · exact absurd hm1 (by omega)
    have hord : toOrdinal (nextDay ⟨y, m, dy⟩) = toOrdinal ⟨y, m, dy⟩ + 1 :=
      toOrdinal_nextDay _ hv
    have hih := ih hjle (nextDay ⟨y, m, dy⟩) hstep.1 hstep.2
    refine ⟨hih.1, ?_⟩
    show toOrdinal (addDays (nextDay ⟨y, m, dy⟩) j) = toOrdinal ⟨y, m, dy⟩ + (j + 1)
    rw [hih.2, hord]
    omega

/-! ### String order -/

theorem char_toNat_inj (a b : Char) (h : a.toNat = b.toNat) : a = b := by
  simp only [Char.toNat] at h
  exact Char.eq_of_val_eq (UInt32.toNat.inj h)

theorem listCharLt_irrefl : ∀ a, listCharLt a a = false
  | [] => rfl
  | c :: cs => by
    show (if c.toNat < c.toNat then true
      else if c.toNat < c.toNat then false else listCharLt cs cs) = false
    rw [if_neg (by omega), if_neg (by omega)]
    exact listCharLt_irrefl cs

theorem listCharLt_asymm : ∀ a b, listCharLt a b = true → listCharLt b a = false
  | [], [], h => by simp [listCharLt] at h
  | [], _ :: _, _ => by simp [listCharLt]
  | _ :: _, [], h => by simp [listCharLt] at h
  | a :: as, b :: bs, h => by
    simp only [listCharLt] at h ⊢
    rcases Nat.lt_trichotomy a.toNat b.toNat with hab | hab | hab
    · rw [if_neg (by omega), if_pos hab]
    · rw [if_neg (by omega), if_neg (by omega)] at h
      rw [if_neg (by omega), if_neg (by omega)]
      exact listCharLt_asymm as bs h
    · rw [if_neg (by omega), if_pos hab] at h
      simp at h

theorem listCharLt_trans : ∀ a b c,
    listCharLt a b = true → listCharLt b c = true → listCharLt a c = true
  | [], [], _, h1, _ => by simp [listCharLt] at h1
  | [], _ :: _, [], _, h2 => by simp [listCharLt] at h2
  | [], _ :: _, _ :: _, _, _ => by simp [listCharLt]
  | _ :: _, [], _, h1, _ => by simp [listCharLt] at h1
  | _ :: _, _ :: _, [], _, h2 => by simp [listCharLt] at h2
  | a :: as, b :: bs, c :: cs, h1, h2 => by
    simp only [listCharLt] at h1 h2 ⊢
    rcases Nat.lt_trichotomy a.toNat b.toNat with hab | hab | hab <;>
      rcases Nat.lt_trichotomy b.toNat c.toNat with hbc | hbc | hbc
    · rw [if_pos (by omega)]
    · rw [if_pos (by omega)]
    · rw [if_neg (by omega), if_pos hbc] at h2
      simp at h2
    · rw [if_pos (by omega)]
    · rw [if_neg (by omega), if_neg (by omega)] at h1 h2
      rw [if_neg (by omega), if_neg (by omega)]
      exact listCharLt_trans as bs cs h1 h2
    · rw [if_neg (by omega), if_pos hbc] at h2
      simp at h2
    · rw [if_neg (by omega), if_pos hab] at h1
      simp at h1
    · rw [if_neg (by omega), if_pos hab] at h1
      simp at h1
    · rw [if_neg (by omega), if_pos hab] at h1
      simp at h1

theorem listCharLt_conn : ∀ a b,
    listCharLt a b = false → listCharLt b a = false → a = b
  | [], [], _, _ => rfl
  | [], _ :: _, h1, _ => by simp [listCharLt] at h1
  | _ :: _, [], _, h2 => by simp [listCharLt] at h2
  | a :: as, b :: bs, h1, h2 => by
    simp only [listCharLt] at h1 h2
    rcases Nat.lt_trichotomy a.toNat b.toNat with hab | hab | hab
    · rw [if_pos hab] at h1
      simp at h1
    · rw [if_neg (by omega), if_neg (by omega)] at h1 h2
      rw [char_toNat_inj a b hab, listCharLt_conn as bs h1 h2]
    · rw [if_pos hab] at h2
      simp at h2

theorem strLe_total (a b : String) : strLe a b = true ∨ strLe b a = true := by
  unfold strLe strLt
  by_cases h : listCharLt b.toList a.toList = true
  · right
    have h2 := listCharLt_asymm _ _ h
    simp only [String.toList] at h2 ⊢
    simp [h2]
  · left
    simp only [Bool.not_eq_true, String.toList] at h
    simp [h]

theorem strLe_trans (a b c : String) :
    strLe a b = true → strLe b c = true → strLe a c = true := by
  unfold strLe strLt
  intro h1 h2
  simp only [Bool.not_eq_true', String.toList] at h1 h2 ⊢
  by_contra hca
  simp only [Bool.not_eq_false] at hca
  by_cases hab : listCharLt a.data b.data = true
  · exact absurd (listCharLt_trans _ _ _ hca hab) (by simp [h2])
  · have heq : a.data = b.data :=
      listCharLt_conn _ _ (by simpa using hab) h1
    rw [heq] at hca
    simp [hca] at h2

/-! ### Stable sort lemmas -/

theorem mem_pyInsert {α : Type} (le : α → α → Bool) (x z : α) :
    ∀ l, z ∈ pyInsert le x l ↔ z = x ∨ z ∈ l
  | [] => by simp [pyInsert]
  | y :: ys => by
    simp only [pyInsert]
    by_cases h : le y x = true
    · rw [if_pos h]
      simp only [List.mem_cons, mem_pyInsert le x z ys]
      tauto
    · rw [if_neg h]
      simp only [List.mem_cons]

theorem pairwise_pyInsert {α : Type} (le : α → α → Bool)
    (total : ∀ a b, le a b = true ∨ le b a = true)
    (htrans : ∀ a b c, le a b = true → le b c = true → le a c = true)
    (x : α) : ∀ l, l.Pairwise (fun a b => le a b = true) →
      (pyInsert le x l).Pairwise (fun a b => le a b = true)
  | [], _ => by simp [pyInsert]
  | y :: ys, hl => by
    rw [List.pairwise_cons] at hl
    simp only [pyInsert]
    by_cases h : le y x = true
    · rw [if_pos h]
      simp only [List.pairwise_cons]
      refine ⟨?_, pairwise_pyInsert le total htrans x ys hl.2⟩
      intro z hz
      rcases (mem_pyInsert le x z ys).mp hz with rfl | hzys
      · exact h
      · exact hl.1 z hzys
    · rw [if_neg h]
      have hxy : le x y = true := (total x y).resolve_right (by simpa using h)
      refine List.pairwise_cons.mpr ⟨?_, List.pairwise_cons.mpr hl⟩
      intro z hz
      rcases List.mem_cons.mp hz with rfl | hzys
      · exact hxy
      · exact htrans x y z hxy (hl.1 z hzys)

theorem pairwise_pySort_aux {α : Type} (le : α → α → Bool)
    (total : ∀ a b, le a b = true ∨ le b a = true)
    (htrans : ∀ a b c, le a b = true → le b c = true → le a c = true) :
    ∀ (l acc : List α), acc.Pairwise (fun a b => le a b = true) →
      (l.foldl (fun acc x => pyInsert le x acc) acc).Pairwise
        (fun a b => le a b = true)
  | [], _, hacc => hacc
  | x :: xs, acc, hacc =>
    pairwise_pySort_aux le total htrans xs (pyInsert le x acc)
      (pairwise_pyInsert le total htrans x acc hacc)

theorem pairwise_pySort {α : Type} (le : α → α → Bool)
    (total : ∀ a b, le a b = true ∨ le b a = true)
    (htrans : ∀ a b c, le a b = true → le b c = true → le a c = true)
    (l : List α) :
    (pySort le l).Pairwise (fun a b => le a b = true) :=
  pairwise_pySort_aux le total htrans l [] List.Pairwise.nil

theorem filter_rows_pairwise (R : Row → Row → Prop) (rows : List Row)
    (availability_only : Bool) (rtf : Option String)
    (h : rows.Pairwise R) : (filter_rows rows availability_only rtf).Pairwise R := by
  unfold filter_rows
  have h1 : (if availability_only then rows.filter is_available else rows).Pairwise R := by
    split
    · exact h.filter _
    · exact h
  match rtf with
  | none => exact h1
  | some rtf =>
    simp only
    split
    · exact h1
    · split
      · exact h1
      · exact h1.filter _

/-! ### Searcher bounds -/

theorem searchWith_some {α : Type} (f : Option Char → List Char → Option α) (g : α) :
    ∀ prev l, searchWith f prev l = some g → ∃ p l', f p l' = some g
  | prev, [], h => ⟨prev, [], h⟩
  | prev, c :: rest, h => by
    simp only [searchWith] at h
    cases hf : f prev (c :: rest) with
    | some g' => exact ⟨prev, c :: rest, by rw [hf]; rw [hf] at h; exact h⟩
    | none =>
      rw [hf] at h
      exact searchWith_some f g (some c) rest h

theorem digitVal_le_nine (c : Char) (h : isDigitChar c = true) : digitVal c ≤ 9 := by
  simp only [isDigitChar, Bool.and_eq_true, decide_eq_true_eq] at h
  simp only [digitVal]
  omega

theorem orElse_eq_some {α : Type} (a b : Option α) (g : α) :
    (a <|> b) = some g ↔ a = some g ∨ (a = none ∧ b = some g) := by
  cases a <;> simp

theorem dateDayPart_bounds (y mo : ℕ) (l : List Char) (y' m' d' : ℕ)
    (h : dateDayPart y mo l = some (y', m', d')) :
    y' = y ∧ m' = mo ∧ d' ≤ 99 := by
  unfold dateDayPart at h
  rcases (orElse_eq_some _ _ _).mp h with h2 | ⟨_, h1⟩
  · match l, h2 with
    | d1 :: d2 :: r, h2 =>
      simp only at h2
      split_ifs at h2 with hc
      · simp only [Option.some.injEq, Prod.mk.injEq] at h2
        simp only [Bool.and_eq_true] at hc
        have b1 := digitVal_le_nine d1 hc.1.1
        have b2 := digitVal_le_nine d2 hc.1.2
        exact ⟨h2.1.symm, h2.2.1.symm, by omega⟩
  · match l, h1 with
    | d1 :: r, h1 =>
      simp only at h1
      split_ifs at h1 with hc
      · simp only [Option.some.injEq, Prod.mk.injEq] at h1
        simp only [Bool.and_eq_true] at hc
        have b1 := digitVal_le_nine d1 hc.1
        exact ⟨h1.1.symm, h1.2.1.symm, by omega⟩

theorem dateMonthPart_bounds (y : ℕ) (l : List Char) (y' m' d' : ℕ)
    (h : dateMonthPart y l = some (y', m', d')) :
    y' = y ∧ m' ≤ 99 ∧ d' ≤ 99 := by
  unfold dateMonthPart at h
  rcases (orElse_eq_some _ _ _).mp h with h2 | ⟨_, h1⟩
  · split at h2
    · split_ifs at h2 with hc
      · simp only [Bool.and_eq_true] at hc
        have hb := dateDayPart_bounds _ _ _ _ _ _ h2
        have b1 := digitVal_le_nine _ hc.1
        have b2 := digitVal_le_nine _ hc.2
        exact ⟨hb.1, by omega, hb.2.2⟩
    · cases h2
  · split at h1
    · split_ifs at h1 with hc
      · have hb := dateDayPart_bounds _ _ _ _ _ _ h1
        have b1 := digitVal_le_nine _ hc
        exact ⟨hb.1, by omega, hb.2.2⟩
    · cases h1

theorem dateAt_bounds (prev : Option Char) (l : List Char) (y m d : ℕ)
    (h : dateAt prev l = some (y, m, d)) :
    2000 ≤ y ∧ y ≤ 2099 ∧ m ≤ 99 ∧ d ≤ 99 := by
  unfold dateAt at h
  split at h
  · split_ifs at h with hc
    · simp only [Bool.and_eq_true] at hc
      have hb := dateMonthPart_bounds _ _ _ _ _ h
      have b1 := digitVal_le_nine _ hc.1.2
      have b2 := digitVal_le_nine _ hc.2
      refine ⟨?_, ?_, hb.2.1, hb.2.2⟩ <;> omega
  · cases h

theorem findDateRe_bounds (text : String) (y m d : ℕ)
    (h : findDateRe text = some (y, m, d)) :
    2000 ≤ y ∧ y ≤ 2099 ∧ m ≤ 99 ∧ d ≤ 99 := by
  obtain ⟨p, l', hf⟩ := searchWith_some _ _ _ _ h
  exact dateAt_bounds p l' y m d hf

/-! ### Rendering and reparsing of the normalized date -/

theorem digitCh_lemmas (n : ℕ) (h : n ≤ 9) :
    isDigitChar (digitCh n) = true ∧ digitVal (digitCh n) = n ∧
      isSpaceChar (digitCh n) = false := by
  interval_cases n <;> exact ⟨rfl, rfl, rfl⟩

theorem dropWhile_of_all_false (p : Char → Bool) :
    ∀ l : List Char, (∀ c ∈ l, p c = false) → l.dropWhile p = l := by
  intro l hl
  induction l with
  | nil => rfl
  | cons c cs _ =>
    rw [List.dropWhile_cons]
    simp [hl c (by simp)]

theorem stripStr_no_space (s : String)
    (h : ∀ c ∈ s.toList, isSpaceChar c = false) : stripStr s = s := by
  unfold stripStr
  rw [dropWhile_of_all_false _ _ h,
    dropWhile_of_all_false _ _ (by intro c hc; exact h c (List.mem_reverse.mp hc)),
    List.reverse_reverse]
  cases s
  rfl

theorem render_toList (y m d : ℕ) :
    (pad4 y ++ "-" ++ pad2 m ++ "-" ++ pad2 d).toList =
      [digitCh (y / 1000 % 10), digitCh (y / 100 % 10), digitCh (y / 10 % 10),
       digitCh (y % 10), '-', digitCh (m / 10 % 10), digitCh (m % 10), '-',
       digitCh (d / 10 % 10), digitCh (d % 10)] := rfl

theorem parse_render (y m d : ℕ) (hy : y ≤ 9999) (hm : m ≤ 99) (hd : d ≤ 99) :
    parse_date_str (pad4 y ++ "-" ++ pad2 m ++ "-" ++ pad2 d) =
      if validMDate ⟨y, m, d⟩ then some ⟨y, m, d⟩ else none := by
  have hmod : ∀ k : ℕ, k % 10 ≤ 9 := fun k => by omega
  have L1 := digitCh_lemmas (y / 1000 % 10) (hmod _)
  have L2 := digitCh_lemmas (y / 100 % 10) (hmod _)
  have L3 := digitCh_lemmas (y / 10 % 10) (hmod _)
  have L4 := digitCh_lemmas (y % 10) (hmod _)
  have L5 := digitCh_lemmas (m / 10 % 10) (hmod _)
  have L6 := digitCh_lemmas (m % 10) (hmod _)
  have L7 := digitCh_lemmas (d / 10 % 10) (hmod _)
  have L8 := digitCh_lemmas (d % 10) (hmod _)
  have hns : ∀ c ∈ (pad4 y ++ "-" ++ pad2 m ++ "-" ++ pad2 d).toList,
      isSpaceChar c = false := by
    rw [render_toList]
    intro c hc
    simp only [List.mem_cons, List.not_mem_nil, or_false] at hc
    rcases hc with rfl | rfl | rfl | rfl | rfl | rfl | rfl | rfl | rfl | rfl
    · exact L1.2.2
    · exact L2.2.2
    · exact L3.2.2
    · exact L4.2.2
    · rfl
    · exact L5.2.2
    · exact L6.2.2
    · rfl
    · exact L7.2.2
    · exact L8.2.2
  have hne : (pad4 y ++ "-" ++ pad2 m ++ "-" ++ pad2 d) ≠ "" := by
    intro hcontra
    have := congrArg String.toList hcontra
    rw [render_toList] at this
    cases this
  unfold parse_date_str
  rw [if_neg hne, stripStr_no_space _ hns, render_toList]
  simp only [L1.1, L2.1, L3.1, L4.1, L5.1, L6.1, L7.1, L8.1, Bool.and_self,
    if_true]
  have hval : digitsVal [digitCh (y / 1000 % 10), digitCh (y / 100 % 10),
      digitCh (y / 10 % 10), digitCh (y % 10)] = y := by
    simp only [digitsVal, List.foldl, L1.2.1, L2.2.1, L3.2.1, L4.2.1]
    omega
  have hvalm : digitsVal [digitCh (m / 10 % 10), digitCh (m % 10)] = m := by
    simp only [digitsVal, List.foldl, L5.2.1, L6.2.1]
    omega
  have hvald : digitsVal [digitCh (d / 10 % 10), digitCh (d % 10)] = d := by
    simp only [digitsVal, List.foldl, L7.2.1, L8.2.1]
    omega
  rw [hval, hvalm, hvald]

/-! ### Branch characterizations of `find_relevant_rows` -/

theorem completeBranch_complete (matched : List IndexItem) (qd : MDate)
    (ex : Bool) (mr : ℕ) (av : Bool) (rtf : Option String) (s : Summary)
    (h : (completeBranch matched qd ex mr true av rtf).2 = some s) :
    s.summary_complete = true := by
  unfold completeBranch at h
  simp only [if_true] at h
  obtain rfl := (Option.some.inj h).symm
  rfl

theorem semanticBranch_not_complete (embedQ : Except Unit (List ℝ))
    (qt : String) (items : List IndexItem) (mr : ℕ) (is av : Bool)
    (rtf : Option String) (s : Summary)
    (h : (semanticBranch embedQ qt items mr is av rtf).2 = some s) :
    s.summary_complete = false := by
  unfold semanticBranch at h
  cases embedQ with
  | error e => cases h
  | ok v =>
    simp only at h
    by_cases his : is = true
    · rw [his] at h
      simp only [if_true] at h
      obtain rfl := (Option.some.inj h).symm
      rfl
    · simp only [Bool.not_eq_true] at his
      rw [his] at h
      simp only [Bool.false_eq_true, if_false] at h
      cases h

/-- C1: with `include_summary`, the summary returned by
`find_relevant_rows` has `summary_complete = true` exactly when the rows
came from the exact-date or the month/day (year-ignoring) match path; the
semantic-ranking path always produces `summary_complete = false`. -/
theorem summary_complete_iff_date_path
    (apiKey : Option String) (embedQ : Except Unit (List ℝ)) (today : MDate)
    (query : String) (items : List IndexItem) (max_rows : ℕ)
    (availability_only : Bool) (s : Summary)
    (h : (find_relevant_rows apiKey embedQ today query items max_rows true
      availability_only).2 = some s) :
    (s.summary_complete = true ↔
      (dateMatchedRows today query items ≠ [] ∨
        monthDayMatchedRows today query items ≠ [])) := by
  unfold find_relevant_rows at h
  unfold dateMatchedRows monthDayMatchedRows
  by_cases hk : apiKey.isNone
  · rw [if_pos hk] at h
    cases h
  rw [if_neg hk] at h
  by_cases hi : items.isEmpty
  · rw [if_pos hi] at h
    cases h
  rw [if_neg hi] at h
  by_cases hq : stripStr query = ""
  · rw [if_pos hq] at h
    cases h
  rw [if_neg hq] at h
  simp only at h
  cases hres : resolve_query_date today (stripStr query) with
  | mk od ex =>
    rw [hres] at h
    cases od with
    | none =>
      simp only at h ⊢
      have hc := semanticBranch_not_complete _ _ _ _ _ _ _ _ h
      simp [hc]
    | some qd =>
      simp only at h ⊢
      by_cases hd : (items.filter (fun it => itemDate it = some qd)).isEmpty
      · rw [if_neg (by simp [hd])] at h
        have hdnil : items.filter (fun it => itemDate it = some qd) = [] := by
          simpa using hd
        by_cases hex : ex = true
        · rw [hex] at h ⊢
          simp only [Bool.not_true, Bool.false_eq_true, if_false] at h ⊢
          have hc := semanticBranch_not_complete _ _ _ _ _ _ _ _ h
          simp [hc, hdnil]
        · simp only [Bool.not_eq_true] at hex
          rw [hex] at h ⊢
          simp only [Bool.not_false, if_true] at h ⊢
          by_cases hmd : (items.filter (fun it =>
              match itemDate it with
              | some rd => rd.month = qd.month && rd.day = qd.day
              | none => false)).isEmpty
          · rw [if_neg (by simp [hmd])] at h
            have hmdnil : items.filter (fun it =>
                match itemDate it with
                | some rd => rd.month = qd.month && rd.day = qd.day
                | none => false) = [] := by simpa using hmd
            have hc := semanticBranch_not_complete _ _ _ _ _ _ _ _ h
            simp [hc, hdnil, hmdnil]
          · rw [if_pos (by simp [hmd])] at h
            have hc := completeBranch_complete _ _ _ _ _ _ _ h
            have hmdne : items.filter (fun it =>
                match itemDate it with
                | some rd => rd.month = qd.month && rd.day = qd.day
                | none => false) ≠ [] := by simpa using hmd
            simp [hc, hmdne]
      · rw [if_pos (by simp [hd])] at h
        have hc := completeBranch_complete _ _ _ _ _ _ _ h
        have hdne : items.filter (fun it => itemDate it = some qd) ≠ [] := by
          simpa using hd
        simp [hc, hdne]

/-- C1 witness: on the scenario data the exact-date path is taken and the
returned summary is complete. -/
theorem summary_complete_iff_date_path_witness :
    scenarioSummary.summary_complete = true ↔
      (dateMatchedRows scenarioToday scenarioQuery scenarioItems ≠ [] ∨
        monthDayMatchedRows scenarioToday scenarioQuery scenarioItems ≠ []) :=
  summary_complete_iff_date_path (some "k") (.error ()) scenarioToday
    scenarioQuery scenarioItems 5 false scenarioSummary (by rfl)

/-- C2 counterexample: on the spec's own scenario (rows "12" and "5" dated
2025-06-10, query "is anything available June 10 2025"), the rows returned
by `find_relevant_rows` come back in raw-string order ["12", "5"], not in
the numeric order ["5", "12"] the claim asserts. -/
theorem date_path_row_order_counterexample :
    (find_relevant_rows (some "k") (.error ()) scenarioToday scenarioQuery
        scenarioItems 5 true false).1.map (fun r => rowGet r "room_number")
      = ["12", "5"] ∧
    (["12", "5"] : List String) ≠ ["5", "12"] :=
  ⟨by rfl, by decide⟩

/-- C2 amended: in the exact-date and day/month paths the returned rows
are sorted by the raw `room_number` string under Python's lexicographic
string comparison (not numerically); the numeric-before-alphanumeric
ordering applies only to the summary's distinct room-number list. On the
scenario, the rows come back ["12", "5"] while the summary lists
["5", "12"]. -/
theorem date_path_rows_sorted_by_string_key :
    (∀ (matched : List IndexItem) (qd : MDate) (ex : Bool) (mr : ℕ)
      (is av : Bool) (rtf : Option String),
      ((completeBranch matched qd ex mr is av rtf).1).Pairwise
        (fun r1 r2 => strLe (rowGet r1 "room_number") (rowGet r2 "room_number") = true)) ∧
    (find_relevant_rows (some "k") (.error ()) scenarioToday scenarioQuery
        scenarioItems 5 true false).1.map (fun r => rowGet r "room_number")
      = ["12", "5"] ∧
    (find_relevant_rows (some "k") (.error ()) scenarioToday scenarioQuery
        scenarioItems 5 true false).2.map (·.room_numbers)
      = some ["5", "12"] := by
  refine ⟨?_, by rfl, by rfl⟩
  intro matched qd ex mr is av rtf
  unfold completeBranch
  simp only
  apply List.Pairwise.sublist (List.take_sublist _ _)
  apply filter_rows_pairwise
  rw [List.pairwise_map]
  exact pairwise_pySort _
    (fun a b => strLe_total (rowGet a.row "room_number") (rowGet b.row "room_number"))
    (fun a b c => strLe_trans (rowGet a.row "room_number")
      (rowGet b.row "room_number") (rowGet c.row "room_number")) matched

/-- C3 counterexample: an ISO-shaped match with invalid calendar values
("2025-02-31") resolves to `(none, true)` — the explicit-year flag stays
true — not `(none, false)` as the claim states for both components. -/
theorem invalid_iso_flag_counterexample :
    resolve_query_date ⟨2025, 1, 1⟩ "2025-02-31" = (none, true) ∧
      ((none : Option MDate), true) ≠ ((none : Option MDate), false) :=
  ⟨by rfl, by decide⟩

/-- C3 amended: when the matched pattern has invalid calendar values the
resolver returns `none` without raising and without backtracking to a
lower-priority pattern, but the second component is `true` on the ISO path
(the explicit-year flag is set before validation) and `false` only on the
month/day-phrase path. -/
theorem invalid_date_resolution_amended :
    (∀ (today : MDate) (text : String) (y m d : ℕ),
      findDateRe text = some (y, m, d) → ¬ validMDate ⟨y, m, d⟩ →
      resolve_query_date today text = (none, true)) ∧
    (∀ (today : MDate) (text : String) (day : ℕ) (tok : List Char)
      (yr : Option ℕ),
      findDateRe text = none →
      hasSub (lowerStr text).toList "day after tomorrow".toList = false →
      hasSub (lowerStr text).toList "tomorrow".toList = false →
      hasSub (lowerStr text).toList "today".toList = false →
      (searchWith mdAt none (lowerStr text).toList <|>
        searchWith mdRevAt none (lowerStr text).toList) = some (day, tok, yr) →
      ¬ validMDate ⟨yr.getD today.year, monthFromToken (String.mk tok), day⟩ →
      resolve_query_date today text = (none, false)) := by
  constructor
  · intro today text y m d hfind hinv
    have htext : text ≠ "" := by
      intro hcontra
      rw [hcontra] at hfind
      cases hfind
    unfold resolve_query_date
    rw [if_neg htext]
    have hnorm : normalize_date text =
        some (pad4 y ++ "-" ++ pad2 m ++ "-" ++ pad2 d) := by
      unfold normalize_date
      rw [if_neg htext, hfind]
      rfl
    rw [hnorm]
    simp only
    have hb := findDateRe_bounds text y m d hfind
    rw [parse_render y m d (by omega) hb.2.2.1 hb.2.2.2]
    rw [if_neg hinv]
  · intro today text day tok yr hfind h1 h2 h3 hmd hinv
    have htext : text ≠ "" := by
      intro hcontra
      rw [hcontra] at hmd
      have hmd2 : (none : Option (ℕ × List Char × Option ℕ)) = some (day, tok, yr) := hmd
      cases hmd2
    unfold resolve_query_date
    rw [if_neg htext]
    have hnorm : normalize_date text = none := by
      unfold normalize_date
      rw [if_neg htext, hfind]
      rfl
    rw [hnorm]
    simp only
    rw [if_neg (by rw [h1]; simp), if_neg (by rw [h2]; simp),
      if_neg (by rw [h3]; simp), hmd]
    simp only
    rw [if_neg hinv]

/-- C3 witness: "2025-02-31" resolves to `(none, true)` through the ISO
path and "31 february" to `(none, false)` through the month/day path. -/
theorem invalid_date_resolution_amended_witness :
    resolve_query_date ⟨2025, 1, 1⟩ "2025-02-31" = (none, true) ∧
      resolve_query_date ⟨2025, 1, 1⟩ "31 february" = (none, false) :=
  ⟨invalid_date_resolution_amended.1 ⟨2025, 1, 1⟩ "2025-02-31" 2025 2 31
      (by rfl) (by decide),
    invalid_date_resolution_amended.2 ⟨2025, 1, 1⟩ "31 february" 31
      "february".toList none (by rfl) (by rfl) (by rfl) (by rfl) (by rfl)
      (by decide)⟩

theorem wdWeekdayPart_wd_le (q : Option (List Char)) (r : List Char)
    (q' : Option (List Char)) (wd : ℕ) (h : wdWeekdayPart q r = some (q', wd)) :
    wd ≤ 6 := by
  unfold wdWeekdayPart at h
  obtain ⟨p, hp, hpf⟩ := List.exists_of_findSome?_eq_some h
  split_ifs at hpf
  simp only [Option.some.injEq, Prod.mk.injEq] at hpf
  have hple : p.2 ≤ 6 := by
    simp only [weekdayForms, List.mem_cons, List.not_mem_nil, or_false] at hp
    rcases hp with rfl | rfl | rfl | rfl | rfl | rfl | rfl <;> simp
  omega

theorem wdAt_wd_le (prev : Option Char) (l : List Char)
    (q : Option (List Char)) (wd : ℕ) (h : wdAt prev l = some (q, wd)) :
    wd ≤ 6 := by
  unfold wdAt at h
  split_ifs at h
  rcases (orElse_eq_some _ _ _).mp h with h2 | ⟨_, h1⟩
  · obtain ⟨p, _, hpf⟩ := List.exists_of_findSome?_eq_some h2
    split_ifs at hpf
    exact wdWeekdayPart_wd_le _ _ _ _ hpf
  · exact wdWeekdayPart_wd_le _ _ _ _ h1

/-- C4: with no higher-priority date pattern in the text, a
`[next|this] <weekday>` phrase resolves to the next occurrence of that
weekday on or after today with explicit-year false; "next" when today
already is that weekday yields today + 7 days, while a bare weekday or
"this" yields the nearest occurrence including today itself. -/
theorem weekday_resolution (today : MDate) (text : String)
    (q : Option (List Char)) (wd : ℕ)
    (hvalid : validMDate today) (hy : today.year < 9999)
    (hfind : findDateRe text = none)
    (h1 : hasSub (lowerStr text).toList "day after tomorrow".toList = false)
    (h2 : hasSub (lowerStr text).toList "tomorrow".toList = false)
    (h3 : hasSub (lowerStr text).toList "today".toList = false)
    (hmd : (searchWith mdAt none (lowerStr text).toList <|>
      searchWith mdRevAt none (lowerStr text).toList) = none)
    (hwd : searchWith wdAt none (lowerStr text).toList = some (q, wd)) :
    ∃ k, resolve_query_date today text = (some (addDays today k), false) ∧
      weekdayOf (addDays today k) = wd ∧ k ≤ 7 ∧
      ((q = some "next".toList ∧ weekdayOf today = wd ∧ k = 7) ∨
        (¬(q = some "next".toList ∧ weekdayOf today = wd) ∧ k < 7 ∧
          ∀ j, j < k → weekdayOf (addDays today j) ≠ wd)) := by
  have hwd6 : wd ≤ 6 := by
    obtain ⟨p, l', hf⟩ := searchWith_some _ _ _ _ hwd
    exact wdAt_wd_le _ _ _ _ hf
  have htext : text ≠ "" := by
    intro hcontra
    rw [hcontra] at hwd
    have hwd2 : (none : Option (Option (List Char) × ℕ)) = some (q, wd) := hwd
    cases hwd2
  have hnorm : normalize_date text = none := by
    unfold normalize_date
    rw [if_neg htext, hfind]
    rfl
  have hwdt : weekdayOf today < 7 := Nat.mod_lt _ (by omega)
  have hwk : ∀ k, k ≤ 7 → weekdayOf (addDays today k) = (weekdayOf today + k) % 7 := by
    intro k hk
    have hord := (addDays_walk k (by omega) today hvalid (Or.inl hy)).2
    unfold weekdayOf
    rw [hord]
    omega
  unfold resolve_query_date
  rw [if_neg htext, hnorm]
  simp only
  rw [if_neg (by rw [h1]; simp), if_neg (by rw [h2]; simp),
    if_neg (by rw [h3]; simp), hmd]
  simp only
  rw [hwd]
  simp only
  by_cases hq : q = some "next".toList ∧ (7 + wd - weekdayOf today) % 7 = 0
  · have hcond : (decide (q = some "next".toList) &&
        decide ((7 + wd - weekdayOf today) % 7 = 0)) = true := by
      simp [hq.1, hq.2]
    rw [if_pos hcond]
    refine ⟨7, rfl, ?_, le_refl 7, Or.inl ⟨hq.1, ?_, rfl⟩⟩
    · rw [hwk 7 (le_refl 7)]
      have := hq.2
      omega
    · have := hq.2
      omega
  · have hcond : ¬((decide (q = some "next".toList) &&
        decide ((7 + wd - weekdayOf today) % 7 = 0)) = true) := by
      simp only [Bool.and_eq_true, decide_eq_true_eq]
      exact hq
    rw [if_neg hcond]
    refine ⟨(7 + wd - weekdayOf today) % 7, rfl, ?_, by omega, Or.inr ⟨?_, by omega, ?_⟩⟩
    · rw [hwk _ (by omega)]
      omega
    · rintro ⟨hqn, hwdeq⟩
      exact hq ⟨hqn, by omega⟩
    · intro j hj
      rw [hwk j (by omega)]
      omega

/-- C4 witness: today 2025-10-12 is a Sunday; "next sunday" resolves to
2025-10-19, seven days ahead, with explicit-year false. -/
theorem weekday_resolution_witness :
    resolve_query_date ⟨2025, 10, 12⟩ "next sunday" =
      (some ⟨2025, 10, 19⟩, false) ∧ weekdayOf ⟨2025, 10, 19⟩ = 6 := by
  obtain ⟨k, hres, hwk, hk7, hcase⟩ :=
    weekday_resolution ⟨2025, 10, 12⟩ "next sunday" (some "next".toList) 6
      (by decide) (by decide) (by rfl) (by rfl) (by rfl) (by rfl) (by rfl) (by rfl)
  rcases hcase with ⟨_, _, rfl⟩ | ⟨habs, _, _⟩
  · refine ⟨?_, ?_⟩
    · rw [hres]
      rfl
    · rw [show (⟨2025, 10, 19⟩ : MDate) = addDays ⟨2025, 10, 12⟩ 7 from rfl]
      exact hwk
  · exact absurd ⟨rfl, by decide⟩ habs

/-- C10: the ISO-date rule (parsing.py `_DATE_RE` and config.py `DATE_RE`)
only matches years of the form 20xx; a date-shaped substring with a year
outside 2000-2099 is never matched as an explicit ISO date, and the
resolver falls through to the lower-priority rules on such texts. -/
theorem iso_year_window :
    (∀ (text : String) (y m d : ℕ), findDateRe text = some (y, m, d) →
      2000 ≤ y ∧ y ≤ 2099) ∧
    findDateRe "1999-12-31" = none ∧
    findDateRe "2100-01-01" = none ∧
    (∀ today : MDate, resolve_query_date today "1999-12-31" = (none, false)) ∧
    (∀ today : MDate, resolve_query_date today "2100-01-01" = (none, false)) ∧
    (∀ today : MDate, resolve_query_date today "1999-12-31 tomorrow" =
      (some (addDays today 1), false)) ∧
    should_use_booking_context "1999-12-31" = false ∧
    should_use_booking_context "2025-12-31" = true := by
  refine ⟨?_, by rfl, by rfl, fun today => by rfl, fun today => by rfl,
    fun today => by rfl, by rfl, by rfl⟩
  intro text y m d h
  have hb := findDateRe_bounds text y m d h
  exact ⟨hb.1, hb.2.1⟩

/-- C10 witness: "2025-06-10" is matched and its year lies in the window. -/
theorem iso_year_window_witness : 2000 ≤ 2025 ∧ 2025 ≤ 2099 :=
  iso_year_window.1 "2025-06-10" 2025 6 10 (by rfl)

/-! ### Cosine similarity -/

theorem sumSq_nonneg (l : List ℝ) : 0 ≤ (l.map (fun x => x * x)).sum := by
  apply List.sum_nonneg
  intro x hx
  obtain ⟨y, _, rfl⟩ := List.mem_map.mp hx
  exact mul_self_nonneg y

theorem dot_le_sqrt_mul_sqrt : ∀ (a b : List ℝ),
    (List.zipWith (fun x y => x * y) a b).sum ≤
      Real.sqrt ((a.map (fun x => x * x)).sum) *
        Real.sqrt ((b.map (fun x => x * x)).sum)
  | [], b => by
    simp only [List.zipWith_nil_left, List.sum_nil]
    exact mul_nonneg (Real.sqrt_nonneg _) (Real.sqrt_nonneg _)
  | _ :: _, [] => by
    simp only [List.zipWith_nil_right, List.sum_nil]
    exact mul_nonneg (Real.sqrt_nonneg _) (Real.sqrt_nonneg _)
  | x :: as, y :: bs => by
    have ih := dot_le_sqrt_mul_sqrt as bs
    simp only [List.zipWith_cons_cons, List.sum_cons, List.map_cons]
    have hSa := sumSq_nonneg as
    have hSb := sumSq_nonneg bs
    set Sa := ((as.map (fun x => x * x)).sum) with hSadef
    set Sb := ((bs.map (fun x => x * x)).sum) with hSbdef
    set sa := Real.sqrt Sa with hsadef
    set sb := Real.sqrt Sb with hsbdef
    have hsa0 : 0 ≤ sa := Real.sqrt_nonneg _
    have hsb0 : 0 ≤ sb := Real.sqrt_nonneg _
    have hsa2 : sa ^ 2 = Sa := Real.sq_sqrt hSa
    have hsb2 : sb ^ 2 = Sb := Real.sq_sqrt hSb
    set sA := Real.sqrt (x * x + Sa) with hsAdef
    set sB := Real.sqrt (y * y + Sb) with hsBdef
    have hsA0 : 0 ≤ sA := Real.sqrt_nonneg _
    have hsB0 : 0 ≤ sB := Real.sqrt_nonneg _
    have hsA2 : sA ^ 2 = x * x + Sa :=
      Real.sq_sqrt (by nlinarith [mul_self_nonneg x])
    have hsB2 : sB ^ 2 = y * y + Sb :=
      Real.sq_sqrt (by nlinarith [mul_self_nonneg y])
    have hsq : (x * y + sa * sb) ^ 2 ≤ (sA * sB) ^ 2 := by
      nlinarith [sq_nonneg (x * sb - y * sa)]
    have hstep : x * y + sa * sb ≤ sA * sB := by
      have hroot := Real.sqrt_le_sqrt hsq
      rw [Real.sqrt_sq_eq_abs, Real.sqrt_sq_eq_abs] at hroot
      calc x * y + sa * sb ≤ |x * y + sa * sb| := le_abs_self _
        _ ≤ |sA * sB| := hroot
        _ = sA * sB := abs_of_nonneg (mul_nonneg hsA0 hsB0)
    have hdot : (List.zipWith (fun x y => x * y) as bs).sum ≤ sa * sb := ih
    linarith

theorem dot_comm (a b : List ℝ) :
    (List.zipWith (fun x y => x * y) a b).sum =
      (List.zipWith (fun x y => x * y) b a).sum := by
  rw [List.zipWith_comm_of_comm (fun x y => x * y) (fun x y => mul_comm x y)]

theorem neg_map_dot : ∀ (a b : List ℝ),
    (List.zipWith (fun x y => x * y) (a.map (fun v => -v)) b).sum =
      -((List.zipWith (fun x y => x * y) a b).sum)
  | [], _ => by simp
  | _ :: _, [] => by simp
  | x :: as, y :: bs => by
    simp only [List.map_cons, List.zipWith_cons_cons, List.sum_cons,
      neg_map_dot as bs]
    ring

theorem neg_map_sumSq (a : List ℝ) :
    ((a.map (fun v => -v)).map (fun x => x * x)).sum =
      (a.map (fun x => x * x)).sum := by
  rw [List.map_map]
  congr 1
  apply List.map_congr_left
  intro x _
  simp [neg_mul_neg]

theorem neg_dot_le (a b : List ℝ) :
    -((List.zipWith (fun x y => x * y) a b).sum) ≤
      Real.sqrt ((a.map (fun x => x * x)).sum) *
        Real.sqrt ((b.map (fun x => x * x)).sum) := by
  have h := dot_le_sqrt_mul_sqrt (a.map (fun v => -v)) b
  rw [neg_map_dot, neg_map_sumSq] at h
  exact h

/-- C5: cosine similarity is symmetric, lies in [-1, 1], and is 0 whenever
either vector has zero norm. -/
theorem cosine_similarity_props (a b : List ℝ) :
    cosine_similarity a b = cosine_similarity b a ∧
    -1 ≤ cosine_similarity a b ∧ cosine_similarity a b ≤ 1 ∧
    (Real.sqrt ((a.map (fun x => x * x)).sum) = 0 ∨
      Real.sqrt ((b.map (fun x => x * x)).sum) = 0 →
      cosine_similarity a b = 0) := by
  classical
  have hSa := sumSq_nonneg a
  have hSb := sumSq_nonneg b
  have hbound := dot_le_sqrt_mul_sqrt a b
  have hnegbound := neg_dot_le a b
  unfold cosine_similarity
  simp only
  by_cases hz : Real.sqrt ((a.map (fun x => x * x)).sum) = 0 ∨
      Real.sqrt ((b.map (fun x => x * x)).sum) = 0
  · rw [if_pos hz, if_pos (by tauto)]
    norm_num
  · push_neg at hz
    have hna : 0 < Real.sqrt ((a.map (fun x => x * x)).sum) :=
      lt_of_le_of_ne (Real.sqrt_nonneg _) (Ne.symm hz.1)
    have hnb : 0 < Real.sqrt ((b.map (fun x => x * x)).sum) :=
      lt_of_le_of_ne (Real.sqrt_nonneg _) (Ne.symm hz.2)
    rw [if_neg (by push_neg; exact hz), if_neg (by push_neg; exact ⟨hz.2, hz.1⟩)]
    refine ⟨?_, ?_, ?_, ?_⟩
    · rw [dot_comm, mul_comm]
    · rw [neg_le, ← neg_div]
      exact div_le_one_of_le₀ hnegbound (by positivity)
    · exact div_le_one_of_le₀ hbound (by positivity)
    · intro hcontra
      exact absurd hcontra (by push_neg; exact hz)

/-- C5 witness: on concrete vectors, symmetry holds and a zero-norm input
gives 0. -/
theorem cosine_similarity_props_witness :
    cosine_similarity [(0 : ℝ)] [1] = 0 ∧
      cosine_similarity [(1 : ℝ), 2] [3, 4] = cosine_similarity [3, 4] [1, 2] :=
  ⟨(cosine_similarity_props [(0 : ℝ)] [1]).2.2.2
      (Or.inl (by norm_num [Real.sqrt_eq_zero'])),
    (cosine_similarity_props [(1 : ℝ), 2] [3, 4]).1⟩

/-! ### Error handling -/

theorem semanticBranch_error (qt : String) (items : List IndexItem) (mr : ℕ)
    (is av : Bool) (rtf : Option String) (e : Unit) :
    semanticBranch (.error e) qt items mr is av rtf = ([], none) := rfl

/-- C8: with no embedding credential, or with an embedding-service error
(or malformed numeric input, both modelled by `.error`) during retrieval
on a query that does not hit a date path, `find_relevant_rows` returns an
empty result and `build_booking_context` returns the empty string; no
exception propagates. -/
theorem error_paths_empty :
    (∀ (embedQ : Except Unit (List ℝ)) (today : MDate) (query : String)
      (items : List IndexItem) (max_rows : ℕ) (is av : Bool),
      find_relevant_rows none embedQ today query items max_rows is av
        = ([], none)) ∧
    (∀ (apiKey : Option String) (today : MDate) (query : String)
      (items : List IndexItem) (max_rows : ℕ) (is av : Bool) (e : Unit),
      dateMatchedRows today query items = [] →
      monthDayMatchedRows today query items = [] →
      find_relevant_rows apiKey (.error e) today query items max_rows is av
        = ([], none)) ∧
    (∀ (embedQ : Except Unit (List ℝ)) (today : MDate) (query : String)
      (items : List IndexItem) (max_rows : ℕ),
      build_booking_context none embedQ today query items max_rows = "") ∧
    (∀ (apiKey : Option String) (today : MDate) (query : String)
      (items : List IndexItem) (max_rows : ℕ) (e : Unit),
      dateMatchedRows today query items = [] →
      monthDayMatchedRows today query items = [] →
      build_booking_context apiKey (.error e) today query items max_rows = "") := by
  have part1 : ∀ (embedQ : Except Unit (List ℝ)) (today : MDate)
      (query : String) (items : List IndexItem) (max_rows : ℕ) (is av : Bool),
      find_relevant_rows none embedQ today query items max_rows is av
        = ([], none) := by
    intro embedQ today query items max_rows is av
    unfold find_relevant_rows
    rfl
  have part2 : ∀ (apiKey : Option String) (today : MDate) (query : String)
      (items : List IndexItem) (max_rows : ℕ) (is av : Bool) (e : Unit),
      dateMatchedRows today query items = [] →
      monthDayMatchedRows today query items = [] →
      find_relevant_rows apiKey (.error e) today query items max_rows is av
        = ([], none) := by
    intro apiKey today query items max_rows is av e hdate hmd
    unfold dateMatchedRows at hdate
    unfold monthDayMatchedRows at hmd
    unfold find_relevant_rows
    by_cases hk : apiKey.isNone
    · rw [if_pos hk]
    rw [if_neg hk]
    by_cases hi : items.isEmpty
    · rw [if_pos hi]
    rw [if_neg hi]
    by_cases hq : stripStr query = ""
    · rw [if_pos hq]
    rw [if_neg hq]
    simp only
    cases hres : resolve_query_date today (stripStr query) with
    | mk od ex =>
      rw [hres] at hdate hmd
      cases od with
      | none => exact semanticBranch_error _ _ _ _ _ _ _
      | some qd =>
        simp only at hdate hmd ⊢
        rw [if_neg (by simp [hdate])]
        by_cases hex : ex = true
        · rw [hex]
          simp only [Bool.not_true, Bool.false_eq_true, if_false]
          exact semanticBranch_error _ _ _ _ _ _ _
        · simp only [Bool.not_eq_true] at hex
          rw [hex]
          rw [hex] at hmd
          simp only [Bool.false_eq_true, if_false] at hmd
          simp only [Bool.not_false, if_true]
          rw [if_neg (by simp [hmd])]
          exact semanticBranch_error _ _ _ _ _ _ _
  refine ⟨part1, part2, ?_, ?_⟩
  · intro embedQ today query items max_rows
    unfold build_booking_context
    dsimp only
    rw [part1]
    simp
  · intro apiKey today query items max_rows e hdate hmd
    unfold build_booking_context
    dsimp only
    rw [part2 apiKey today query items max_rows true _ e hdate hmd]
    simp

/-- C8 witness: concrete instances of the hypothesized parts — an
embedding error on a dateless query yields an empty result and an empty
context block. -/
theorem error_paths_empty_witness :
    find_relevant_rows (some "k") (.error ()) scenarioToday "room availability"
        scenarioItems 5 true false = ([], none) ∧
      build_booking_context (some "k") (.error ()) scenarioToday
        "room availability" scenarioItems 5 = "" :=
  ⟨error_paths_empty.2.1 (some "k") scenarioToday "room availability"
      scenarioItems 5 true false () (by rfl) (by rfl),
    error_paths_empty.2.2.2 (some "k") scenarioToday "room availability"
      scenarioItems 5 () (by rfl) (by rfl)⟩

/-! ### Room-number preview -/

theorem foldl_join_length_ge (sep : String) :
    ∀ (l : List String) (acc : String),
      acc.length ≤ (l.foldl (fun acc y => acc ++ sep ++ y) acc).length
  | [], acc => le_refl _
  | y :: ys, acc => by
    have h := foldl_join_length_ge sep ys (acc ++ sep ++ y)
    simp only [List.foldl_cons]
    calc acc.length ≤ (acc ++ sep ++ y).length := by
          simp only [String.length_append]
          omega
      _ ≤ _ := h

theorem pyJoin_comma_ne_empty (a b : String) (l : List String) :
    pyJoin ", " (a :: b :: l) ≠ "" := by
  intro hcontra
  have h1 : (2 : ℕ) ≤ (pyJoin ", " (a :: b :: l)).length := by
    unfold pyJoin
    simp only [List.foldl_cons]
    calc (2 : ℕ) ≤ (a ++ ", " ++ b).length := by
          have hsep : (", " : String).length = 2 := rfl
          simp only [String.length_append, hsep]
          omega
      _ ≤ _ := foldl_join_length_ge ", " l (a ++ ", " ++ b)
  rw [hcontra] at h1
  simp at h1

/-- C9: the formatted room-number list never exceeds the preview count of
4: exactly the first 4 distinct rooms are listed, and when more exist the
line carries an "(and N more)" suffix where N counts the omitted rooms; on
the "5 available rooms tomorrow" scenario the preview lists 4 rooms plus
"(and 1 more)". -/
theorem room_number_preview_cap :
    (∀ rs : List String, rs ≠ [] →
      format_room_number_list rs 4 =
        (some (pyJoin ", " (rs.take 4)), rs.length - (rs.take 4).length) ∧
      (rs.take 4).length ≤ 4) ∧
    (∀ s : Summary, s.summary_complete = true → 4 < s.room_numbers.length →
      roomNumberLines s =
        ["Room numbers (use verbatim): " ++ pyJoin ", " (s.room_numbers.take 4) ++
          (" (and " ++ toString (s.room_numbers.length - 4) ++ " more)") ++ ".",
         "Ask if they want the full list."]) ∧
    (find_relevant_rows (some "k") (.error ()) c9Today c9Query c9Items 5 true
        true).2.map roomNumberLines =
      some ["Room numbers (use verbatim): 101, 102, 103, 104 (and 1 more).",
        "Ask if they want the full list."] := by
  have parta : ∀ rs : List String, rs ≠ [] →
      format_room_number_list rs 4 =
        (some (pyJoin ", " (rs.take 4)), rs.length - (rs.take 4).length) ∧
      (rs.take 4).length ≤ 4 := by
    intro rs hne
    refine ⟨?_, ?_⟩
    · unfold format_room_number_list
      rw [if_neg hne]
    · rw [List.length_take]
      omega
  refine ⟨parta, ?_, by rfl⟩
  intro s hc hlen
  have hne : s.room_numbers ≠ [] := by
    intro h
    rw [h] at hlen
    simp at hlen
  have htakelen : (s.room_numbers.take 4).length = 4 := by
    rw [List.length_take]
    omega
  obtain ⟨x1, x2, x3, x4, hx⟩ :
      ∃ x1 x2 x3 x4, s.room_numbers.take 4 = [x1, x2, x3, x4] := by
    rcases h4 : s.room_numbers.take 4 with _ | ⟨x1, _ | ⟨x2, _ | ⟨x3, _ | ⟨x4, rest⟩⟩⟩⟩ <;>
      rw [h4] at htakelen <;> simp at htakelen
    exact ⟨x1, x2, x3, x4, by rw [htakelen]⟩
  unfold roomNumberLines
  rw [hc]
  simp only [if_true]
  rw [(parta s.room_numbers hne).1]
  simp only
  rw [hx]
  have h44 : ([x1, x2, x3, x4] : List String).length = 4 := rfl
  rw [h44]
  have hjne : pyJoin ", " [x1, x2, x3, x4] ≠ "" :=
    pyJoin_comma_ne_empty x1 x2 [x3, x4]
  rw [if_pos hjne, if_pos (show s.room_numbers.length - 4 > 0 by omega),
    if_pos (show s.room_numbers.length - 4 > 0 by omega)]
  rfl

/-! ### Index store -/

theorem find_upd_any (k v k' : String) : ∀ l : List (String × String),
    l.any (fun p => p.1 = k) = true →
    (((l.map (fun p => if p.1 = k then (k, v) else p)).find?
        (fun p => p.1 = k')).map (·.2)) =
      (if k' = k then some v else ((l.find? (fun p => p.1 = k')).map (·.2)))
  | [], h => by simp at h
  | p :: rest, h => by
    simp only [List.map_cons]
    by_cases hp : p.1 = k
    · rw [if_pos hp]
      by_cases hk : k' = k
      · rw [if_pos hk]
        rw [List.find?_cons_of_pos _ (by simp [hk])]
        rfl
      · rw [if_neg hk]
        rw [List.find?_cons_of_neg _ (by simp [Ne.symm hk]),
          List.find?_cons_of_neg _ (by simp [hp, Ne.symm hk])]
        by_cases hrest : rest.any (fun p => p.1 = k)
        · rw [find_upd_any k v k' rest hrest, if_neg hk]
        · have hmap : rest.map (fun p => if p.1 = k then (k, v) else p) = rest := by
            conv_rhs => rw [← List.map_id rest]
            apply List.map_congr_left
            intro q hq
            rw [if_neg]
            · rfl
            · intro hcontra
              exact hrest (List.any_eq_true.mpr ⟨q, hq, by simp [hcontra]⟩)
          rw [hmap]
    · rw [if_neg hp]
      have hrest : rest.any (fun p => p.1 = k) = true := by
        simp only [List.any_cons, Bool.or_eq_true] at h
        rcases h with h | h
        · exact absurd (by simpa using h) hp
        · exact h
      by_cases hp' : p.1 = k'
      · rw [List.find?_cons_of_pos _ (by simp [hp']),
          List.find?_cons_of_pos _ (by simp [hp'])]
        rw [if_neg (by rw [← hp']; exact hp)]
      · rw [List.find?_cons_of_neg _ (by simp [hp']),
          List.find?_cons_of_neg _ (by simp [hp'])]
        exact find_upd_any k v k' rest hrest

theorem find_append_single (k v k' : String) (l : List (String × String))
    (hnone : l.any (fun p => p.1 = k) = false) :
    (((l ++ [(k, v)]).find? (fun p => p.1 = k')).map (·.2)) =
      (if k' = k then some v else ((l.find? (fun p => p.1 = k')).map (·.2))) := by
  induction l with
  | nil =>
    by_cases hk : k' = k
    · rw [if_pos hk]
      simp [List.find?, hk]
    · rw [if_neg hk]
      simp [List.find?, Ne.symm hk]
  | cons p rest ih =>
    simp only [List.any_cons, Bool.or_eq_false_iff] at hnone
    by_cases hp' : p.1 = k'
    · rw [List.cons_append, List.find?_cons_of_pos _ (by simp [hp']),
        List.find?_cons_of_pos _ (by simp [hp'])]
      rw [if_neg]
      intro hk
      rw [hk] at hp'
      exact absurd (by simp [hp'] : decide (p.1 = k) = true)
        (by simp [hnone.1] : ¬ decide (p.1 = k) = true)
    · rw [List.cons_append, List.find?_cons_of_neg _ (by simp [hp']),
        List.find?_cons_of_neg _ (by simp [hp'])]
      exact ih (by simpa using hnone.2)

theorem getMeta_setMeta (st : Store) (k v k' : String) :
    getMeta (setMeta st k v) k' = if k' = k then some v else getMeta st k' := by
  unfold getMeta setMeta
  by_cases hany : st.meta.any (fun p => p.1 = k)
  · rw [if_pos hany]
    exact find_upd_any k v k' st.meta hany
  · rw [if_neg hany]
    exact find_append_single k v k' st.meta
      (by simp only [Bool.not_eq_true] at hany; exact hany)

theorem rowCount_setMeta (st : Store) (k v p : String) :
    rowCount (setMeta st k v) p = rowCount st p := by
  unfold rowCount setMeta
  split <;> rfl

theorem meta_setMeta_vectors (st : Store) (k v : String) :
    (setMeta st k v).vectors = st.vectors := by
  unfold setMeta
  split <;> rfl

theorem filter_deleted_eq_nil (p : String) : ∀ l : List VecRow,
    (l.filter (fun v => v.csv_path ≠ p)).filter (fun v => v.csv_path = p) = []
  | [] => rfl
  | v :: rest => by
    by_cases hv : v.csv_path = p
    · rw [List.filter_cons_of_neg (by simp [hv])]
      exact filter_deleted_eq_nil p rest
    · rw [List.filter_cons_of_pos (by simp [hv]),
        List.filter_cons_of_neg (by simp [hv])]
      exact filter_deleted_eq_nil p rest

theorem filter_new_rows (p : String) (triples : List (Row × String × List ℝ)) :
    ((triples.enum.map (fun q =>
        (⟨p, q.1, q.2.1, q.2.2.1, q.2.2.2⟩ : VecRow))).filter
      (fun v => v.csv_path = p)).length = triples.length := by
  have h : ∀ l : List (ℕ × (Row × String × List ℝ)),
      ((l.map (fun q => (⟨p, q.1, q.2.1, q.2.2.1, q.2.2.2⟩ : VecRow))).filter
        (fun v => v.csv_path = p)).length = l.length := by
    intro l
    induction l with
    | nil => rfl
    | cons q rest ih =>
      simp only [List.map_cons]
      rw [List.filter_cons_of_pos (by simp)]
      simp [ih]
  rw [h triples.enum, List.enum_length]

theorem chunkAux_sum : ∀ (fuel : ℕ) (l : List Row), l.length ≤ fuel →
    ((chunkAux fuel l).map List.length).sum = l.length
  | 0, l, h => by
    have : l = [] := List.length_eq_zero.mp (by omega)
    rw [this]
    rfl
  | fuel + 1, [], _ => rfl
  | fuel + 1, x :: xs, h => by
    show List.sum (List.map List.length
      (List.take 100 (x :: xs) :: chunkAux fuel (List.drop 100 (x :: xs))))
      = (x :: xs).length
    have hdrop : (List.drop 100 (x :: xs)).length ≤ fuel := by
      rw [List.length_drop]
      simp only [List.length_cons] at h ⊢
      omega
    rw [List.map_cons, List.sum_cons, chunkAux_sum fuel _ hdrop,
      List.length_take, List.length_drop]
    simp only [List.length_cons]
    omega

theorem chunk100_ne_nil (l : List Row) (h : l ≠ []) : chunk100 l ≠ [] := by
  cases l with
  | nil => exact absurd rfl h
  | cons x xs =>
    show chunkAux (x :: xs).length (x :: xs) ≠ []
    rw [List.length_cons]
    intro hcontra
    exact List.noConfusion hcontra

theorem runBatches_ok (svc : List String → Except Unit (List (List ℝ)))
    (hsvc : ∀ texts, ∃ embs, svc texts = .ok embs ∧ embs.length = texts.length) :
    ∀ bs : List (List Row), ∃ triples,
      (runBatches svc bs).2 = .ok triples ∧
        triples.length = (bs.map List.length).sum
  | [] => ⟨[], rfl, rfl⟩
  | b :: bs => by
    obtain ⟨embs, hembs, hlen⟩ := hsvc (b.map format_row_text)
    obtain ⟨triples, htr, htrlen⟩ := runBatches_ok svc hsvc bs
    refine ⟨(b.zip ((b.map format_row_text).zip embs)).map
      (fun (p : Row × String × List ℝ) => (p.1, p.2.1, p.2.2)) ++ triples,
      ?_, ?_⟩
    · simp only [runBatches]
      rw [hembs]
      simp only
      rw [htr]
      rfl
    · have hlen' : embs.length = b.length := by
        rw [hlen, List.length_map]
      simp only [List.length_append, List.length_map, List.length_zip,
        hlen', min_self, List.map_cons, List.sum_cons, htrlen]

theorem runBatches_pos (svc : List String → Except Unit (List (List ℝ)))
    (bs : List (List Row)) (h : bs ≠ []) : 1 ≤ (runBatches svc bs).1 := by
  cases bs with
  | nil => exact absurd rfl h
  | cons b rest =>
    simp only [runBatches]
    cases svc (b.map format_row_text) with
    | error e => exact le_refl 1
    | ok embs => simp

theorem ensure_index_fresh (embedModel : String)
    (svc : List String → Except Unit (List (List ℝ))) (csv_path mt : String)
    (csvRows : List Row) (store : Store)
    (h : getMeta store "csv_path" = some csv_path ∧
      getMeta store "csv_mtime" = some mt ∧
      getMeta store "embed_model" = some embedModel ∧
      rowCount store csv_path > 0) :
    ensure_index embedModel svc csv_path true (some mt) csvRows store =
      (store, 0) := by
  unfold ensure_index
  rw [if_neg (by simp)]
  dsimp only
  rw [if_pos h]

theorem ensure_index_establishes (embedModel : String)
    (svc : List String → Except Unit (List (List ℝ))) (csv_path mt : String)
    (csvRows : List Row) (store : Store)
    (hsvc : ∀ texts, ∃ embs, svc texts = .ok embs ∧ embs.length = texts.length)
    (hrows : csvRows ≠ []) :
    getMeta (ensure_index embedModel svc csv_path true (some mt) csvRows
        store).1 "csv_path" = some csv_path ∧
    getMeta (ensure_index embedModel svc csv_path true (some mt) csvRows
        store).1 "csv_mtime" = some mt ∧
    getMeta (ensure_index embedModel svc csv_path true (some mt) csvRows
        store).1 "embed_model" = some embedModel ∧
    rowCount (ensure_index embedModel svc csv_path true (some mt) csvRows
        store).1 csv_path > 0 := by
  by_cases hfresh : getMeta store "csv_path" = some csv_path ∧
      getMeta store "csv_mtime" = some mt ∧
      getMeta store "embed_model" = some embedModel ∧
      rowCount store csv_path > 0
  · rw [ensure_index_fresh embedModel svc csv_path mt csvRows store hfresh]
    exact hfresh
  · obtain ⟨triples, htr, htrlen⟩ := runBatches_ok svc hsvc (chunk100 csvRows)
    have heval : ensure_index embedModel svc csv_path true (some mt) csvRows
        store =
        (setMeta (setMeta (setMeta
          ({ store with vectors :=
              (store.vectors.filter (fun v => v.csv_path ≠ csv_path)) ++
                triples.enum.map (fun p =>
                  (⟨csv_path, p.1, p.2.1, p.2.2.1, p.2.2.2⟩ : VecRow)) } :
            Store)
          "csv_path" csv_path) "csv_mtime" mt) "embed_model" embedModel,
          (runBatches svc (chunk100 csvRows)).1) := by
      unfold ensure_index
      rw [if_neg (by simp)]
      dsimp only
      rw [if_neg hfresh, if_neg hrows, htr]
    rw [heval]
    dsimp only
    refine ⟨?_, ?_, ?_, ?_⟩
    · rw [getMeta_setMeta, if_neg (by decide), getMeta_setMeta,
        if_neg (by decide), getMeta_setMeta, if_pos rfl]
    · rw [getMeta_setMeta, if_neg (by decide), getMeta_setMeta, if_pos rfl]
    · rw [getMeta_setMeta, if_pos rfl]
    · rw [rowCount_setMeta, rowCount_setMeta, rowCount_setMeta]
      unfold rowCount
      dsimp only
      rw [List.filter_append, List.length_append, filter_deleted_eq_nil,
        filter_new_rows, htrlen]
      have hc : ((chunk100 csvRows).map List.length).sum = csvRows.length := by
        unfold chunk100
        exact chunkAux_sum csvRows.length csvRows (le_refl _)
      rw [hc]
      have hpos : 0 < csvRows.length := List.length_pos.mpr hrows
      simpa using hpos

/-- C6: `_ensure_index` is idempotent: after a successful rebuild for a
source path (service healthy, CSV nonempty), a second call with the same
path, modification time and embedding-model id performs no
embedding-service calls and returns the store unchanged. -/
theorem ensure_index_idempotent (embedModel : String)
    (svc : List String → Except Unit (List (List ℝ))) (csv_path mt : String)
    (csvRows : List Row) (store : Store)
    (hsvc : ∀ texts, ∃ embs, svc texts = .ok embs ∧ embs.length = texts.length)
    (hrows : csvRows ≠ []) :
    ensure_index embedModel svc csv_path true (some mt) csvRows
      (ensure_index embedModel svc csv_path true (some mt) csvRows store).1 =
      ((ensure_index embedModel svc csv_path true (some mt) csvRows store).1,
        0) :=
  ensure_index_fresh embedModel svc csv_path mt csvRows _
    (ensure_index_establishes embedModel svc csv_path mt csvRows store hsvc
      hrows)

theorem ensure_index_idempotent_witness :
    ensure_index "text-embedding-3-small" witSvcOk "bookings.csv" true
      (some "100.0") [scenarioRow5]
      (ensure_index "text-embedding-3-small" witSvcOk "bookings.csv" true
        (some "100.0") [scenarioRow5] ⟨[], []⟩).1 =
      ((ensure_index "text-embedding-3-small" witSvcOk "bookings.csv" true
        (some "100.0") [scenarioRow5] ⟨[], []⟩).1, 0) :=
  ensure_index_idempotent "text-embedding-3-small" witSvcOk "bookings.csv"
    "100.0" [scenarioRow5] ⟨[], []⟩
    (fun texts => ⟨texts.map (fun _ => []), rfl, List.length_map _ _⟩)
    (List.cons_ne_nil _ _)

/-- C7: if the embedding service fails during a rebuild, `_ensure_index`
aborts without touching the staleness metadata (the meta table is exactly
what it was before the call), and a subsequent call with any service
attempts the rebuild again, making at least one embedding-service call. -/
theorem ensure_index_failure_keeps_metadata (embedModel : String)
    (svc svc2 : List String → Except Unit (List (List ℝ)))
    (csv_path mt : String) (csvRows : List Row) (store : Store)
    (hstale : ¬(getMeta store "csv_path" = some csv_path ∧
      getMeta store "csv_mtime" = some mt ∧
      getMeta store "embed_model" = some embedModel ∧
      rowCount store csv_path > 0))
    (hrows : csvRows ≠ [])
    (herr : ∃ e, (runBatches svc (chunk100 csvRows)).2 = .error e) :
    (ensure_index embedModel svc csv_path true (some mt) csvRows store).1.meta
      = store.meta ∧
    1 ≤ (ensure_index embedModel svc2 csv_path true (some mt) csvRows
      (ensure_index embedModel svc csv_path true (some mt) csvRows
        store).1).2 := by
  obtain ⟨e, he⟩ := herr
  have heval : ensure_index embedModel svc csv_path true (some mt) csvRows
      store =
      (({ store with
          vectors := store.vectors.filter (fun v => v.csv_path ≠ csv_path) } :
        Store),
        (runBatches svc (chunk100 csvRows)).1) := by
    unfold ensure_index
    rw [if_neg (by simp)]
    dsimp only
    rw [if_neg hstale, if_neg hrows, he]
  have hrc : rowCount
      ({ store with
          vectors := store.vectors.filter (fun v => v.csv_path ≠ csv_path) } :
        Store) csv_path = 0 := by
    unfold rowCount
    dsimp only
    rw [filter_deleted_eq_nil]
    rfl
  have hstale2 : ¬(getMeta
        ({ store with
            vectors := store.vectors.filter (fun v => v.csv_path ≠ csv_path) } :
          Store) "csv_path" = some csv_path ∧
      getMeta
        ({ store with
            vectors := store.vectors.filter (fun v => v.csv_path ≠ csv_path) } :
          Store) "csv_mtime" = some mt ∧
      getMeta
        ({ store with
            vectors := store.vectors.filter (fun v => v.csv_path ≠ csv_path) } :
          Store) "embed_model" = some embedModel ∧
      rowCount
        ({ store with
            vectors := store.vectors.filter (fun v => v.csv_path ≠ csv_path) } :
          Store) csv_path > 0) := by
    intro hcontra
    rw [hrc] at hcontra
    exact absurd hcontra.2.2.2 (by omega)
  constructor
  · rw [heval]
  · rw [heval]
    dsimp only
    have hpos := runBatches_pos svc2 (chunk100 csvRows)
      (chunk100_ne_nil csvRows hrows)
    rcases hrun2 : runBatches svc2 (chunk100 csvRows) with ⟨n, res⟩
    rw [hrun2] at hpos
    unfold ensure_index
    rw [if_neg (by simp)]
    dsimp only
    rw [if_neg hstale2, if_neg hrows, hrun2]
    cases res with
    | error e2 => exact hpos
    | ok triples => exact hpos

theorem ensure_index_failure_keeps_metadata_witness :
    (ensure_index "text-embedding-3-small" witSvcErr "bookings.csv" true
      (some "100.0") [scenarioRow5] ⟨[], []⟩).1.meta =
      (⟨[], []⟩ : Store).meta ∧
    1 ≤ (ensure_index "text-embedding-3-small" witSvcOk "bookings.csv" true
      (some "100.0") [scenarioRow5]
      (ensure_index "text-embedding-3-small" witSvcErr "bookings.csv" true
        (some "100.0") [scenarioRow5] ⟨[], []⟩).1).2 :=
  ensure_index_failure_keeps_metadata "text-embedding-3-small" witSvcErr
    witSvcOk "bookings.csv" "100.0" [scenarioRow5] ⟨[], []⟩
    (fun h => Option.noConfusion h.1)
    (List.cons_ne_nil _ _)
    ⟨(), rfl⟩

theorem room_number_preview_cap_witness :
    (format_room_number_list ["101", "102", "103", "104", "105"] 4 =
      (some (pyJoin ", " (["101", "102", "103", "104", "105"].take 4)),
        (["101", "102", "103", "104", "105"] : List String).length -
          ((["101", "102", "103", "104", "105"] :
            List String).take 4).length) ∧
      ((["101", "102", "103", "104", "105"] :
        List String).take 4).length ≤ 4) ∧
    roomNumberLines c9Summary =
      ["Room numbers (use verbatim): " ++
          pyJoin ", " (c9Summary.room_numbers.take 4) ++
          (" (and " ++ toString (c9Summary.room_numbers.length - 4) ++
            " more)") ++ ".",
        "Ask if they want the full list."] :=
  ⟨room_number_preview_cap.1 ["101", "102", "103", "104", "105"]
      (List.cons_ne_nil _ _),
    room_number_preview_cap.2.1 c9Summary rfl (by decide)⟩

end Motel
